import Mathlib

/-!
Verification development for the RPG-Maker-Set-Manager grid/cell-store core.

The Python modules embedded here are the current-generation ones referenced
by the specification: `src/modules/grid_manager.py`, `src/modules/files.py`,
`src/modules/image_manipulation.py` (undo/redo), `src/modules/utils.py`
(`has_valid_pixel`, `history`), `src/modules/maths.py` (`max_row`,
`grid_col`, `grid_row`) and the move logic of
`src/classes/graphics_view.py` (`mouseReleaseEvent`).

Modelling conventions:
* A bitmap (`Img`) is a width, a height and a pixel-sampling function;
  pixel equality of images is the extensional relation `Img.Equiv`.
* `QGraphicsPixmapItem`s are heap-allocated (`ItemId` indirection) because
  the Python dict can alias one item under several indices, and `setPos`
  mutates the shared item.  Scene membership is the `inScene` flag.
* Temporary snapshot PNG files are a map `Path -> Img` inside the state
  (`tempFiles`); `app.temp` is the session artifact list.
* Painting (`QPainter.drawPixmap` / `drawImage`) uses source-over
  compositing.  We model one source pixel over a destination pixel as
  "keep the destination when the source alpha is 0, else take the source".
  This agrees with Qt whenever the destination is transparent or the
  source alpha is 0 or 255, which covers every painting performed by the
  states appearing in the theorems below (cells are disjoint tiles painted
  over a freshly cleared transparent canvas).
* Python `list.append`/`pop()` act on the end of the list; we model the
  undo/redo stacks with the head of a `List` as the top.
-/

namespace SetMgr

/-- A single pixel: an opaque packed colour payload and an alpha value
(0..255).  `has_valid_pixel` only inspects the alpha channel. -/
structure Pix where
  rgb : Nat
  alpha : Nat
  deriving Repr, DecidableEq

/-- The fully transparent pixel (premultiplied ARGB: alpha 0 zeroes the
colour channels). -/
def transparentPix : Pix := ⟨0, 0⟩

/-- A bitmap: dimensions plus a pixel sampling function.  All operations
below only ever sample coordinates inside the bounds. -/
structure Img where
  width : Nat
  height : Nat
  px : Nat → Nat → Pix

/-- Extensional equality of bitmaps: same dimensions and the same pixels
inside the bounds ("bit-identical content"). -/
def Img.Equiv (a b : Img) : Prop :=
  a.width = b.width ∧ a.height = b.height ∧
    ∀ x y, x < a.width → y < a.height → a.px x y = b.px x y

theorem Img.Equiv.refl (a : Img) : Img.Equiv a a :=
  ⟨rfl, rfl, fun _ _ _ _ => rfl⟩

theorem Img.Equiv.symm {a b : Img} (h : Img.Equiv a b) : Img.Equiv b a := by
  obtain ⟨hw, hh, hp⟩ := h
  exact ⟨hw.symm, hh.symm, fun x y hx hy =>
    (hp x y (hw ▸ hx) (hh ▸ hy)).symm⟩

theorem Img.Equiv.trans {a b c : Img} (h1 : Img.Equiv a b) (h2 : Img.Equiv b c) :
    Img.Equiv a c := by
  obtain ⟨hw1, hh1, hp1⟩ := h1
  obtain ⟨hw2, hh2, hp2⟩ := h2
  exact ⟨hw1.trans hw2, hh1.trans hh2, fun x y hx hy =>
    (hp1 x y hx hy).trans (hp2 x y (hw1 ▸ hx) (hh1 ▸ hy))⟩

/-- `utils.has_valid_pixel`: true when some pixel has alpha strictly
greater than 25 (the code check is `if alpha > 25`).  The Python loops
run y over the height, x over the width. -/
def has_valid_pixel (image : Img) : Bool :=
  (List.range image.height).any fun y =>
    (List.range image.width).any fun x => 25 < (image.px x y).alpha

/-- The grid configuration of a session, resolved once at start-up from the
preset table (`maths.grid_col`, `maths.grid_row`, `app.cell_size`); fixed
for the whole session. -/
structure Cfg where
  cellWidth : Nat
  cellHeight : Nat
  gridCols : Nat
  gridRows : Nat
  deriving Repr, DecidableEq

/-- Sanity of a session configuration: every preset has at least one
column and one row and nonzero cell dimensions. -/
def CfgOK (c : Cfg) : Prop :=
  1 ≤ c.cellWidth ∧ 1 ≤ c.cellHeight ∧ 1 ≤ c.gridCols ∧ 1 ≤ c.gridRows

/-- `maths.grid_col()`: the column count resolved from configuration. -/
def grid_col (c : Cfg) : Nat := c.gridCols

/-- `maths.grid_row()`: the row count resolved from configuration. -/
def grid_row (c : Cfg) : Nat := c.gridRows

/-- A cell index `(column, row)`, the key type of the images dict. -/
abbrev Index := Int × Int

/-- Modelled from the spec: `maths.cell_origin` is called throughout the
current modules but this revision's `maths.py` only carries the earlier
`origin`; spec section 4.1 gives `cellOrigin(index) = index × cell size`,
which also matches `maths.origin`. -/
def cell_origin (c : Cfg) (i : Index) : Int × Int :=
  (i.1 * (c.cellWidth : Int), i.2 * (c.cellHeight : Int))

/-- Modelled from the spec: `maths.cell_index` (missing from this
revision's `maths.py` alongside `cell_origin`); spec section 4.1 gives
`cellIndexOf(px, py) = (floor(px / cellWidth), floor(py / cellHeight))`,
matching the earlier `maths.index` (Python floor division). -/
def cell_index (c : Cfg) (x y : Int) : Index :=
  (Int.fdiv x (c.cellWidth : Int), Int.fdiv y (c.cellHeight : Int))

/-- The out-of-bounds test used by `grid_manager.click_cell`,
`grid_manager.load` and `GraphicsView.dropEvent`: compute the pixel origin
of the index and of the last cell `(grid_col - 1, grid_row - 1)` and
reject when a coordinate is negative or beyond that limit. -/
def out_of_bounds (c : Cfg) (i : Index) : Bool :=
  let o := cell_origin c i
  let lim := cell_origin c ((grid_col c : Int) - 1, (grid_row c : Int) - 1)
  o.1 < 0 || o.1 > lim.1 || o.2 < 0 || o.2 > lim.2

/-- The index clamping of `GraphicsView.mouseMoveEvent` (lines 188-191):
a drag target index is clamped into `[0, grid_col-1] × [0, grid_row-1]`. -/
def clamp_drag_index (c : Cfg) (i : Index) : Index :=
  (min (max i.1 0) ((grid_col c : Int) - 1),
   min (max i.2 0) ((grid_row c : Int) - 1))

abbrev ItemId := Nat
abbrev Path := Nat

/-- A `QGraphicsPixmapItem`: its pixmap content, its scene position and
whether it is currently in the scene. -/
structure Item where
  content : Img
  pos : Int × Int
  inScene : Bool

/-- One entry of the edit history (`app.undo` / `app.redo`), the Python
tuple `(action_type, index, temp, move_type)`. -/
inductive MoveKind where
  | SWITCH
  | OVERWRITE
  deriving Repr, DecidableEq

inductive Action where
  | add (index : Index) (temp : Option Path)
  | delete (index : Index) (temp : Option Path)
  | move (a b : Index) (temp : Option Path) (kind : MoveKind)
  | overhaul (temp : Option Path)

/-- The session state: the sparse images dict, the item heap (dict values
are references, see module comment), the two history stacks, the snapshot
filesystem, the `app.temp` artifact list and the worker guard flag. -/
structure AppState where
  cfg : Cfg
  images : List (Index × ItemId)
  items : List (ItemId × Item)
  nextItem : ItemId
  undoStack : List Action
  redoStack : List Action
  tempFiles : List (Path × Img)
  temp : List Path
  nextPath : Path
  threadRunning : Bool

/-- Dictionary lookup in the images dict. -/
def dictGet : List (Index × ItemId) → Index → Option ItemId
  | [], _ => none
  | e :: es, i => if e.1 = i then some e.2 else dictGet es i

/-- Dictionary update `d[i] = v` (no duplicate keys). -/
def dictSet (d : List (Index × ItemId)) (i : Index) (v : ItemId) :
    List (Index × ItemId) :=
  (i, v) :: d.filter fun e => ¬ e.1 = i

/-- Dictionary deletion `del d[i]`. -/
def dictDel (d : List (Index × ItemId)) (i : Index) : List (Index × ItemId) :=
  d.filter fun e => ¬ e.1 = i

/-- Item-heap lookup; ids are only ever looked up after being allocated,
the fallback item is never observed by the theorems. -/
def heapGet : List (ItemId × Item) → ItemId → Item
  | [], _ => ⟨⟨0, 0, fun _ _ => transparentPix⟩, (0, 0), false⟩
  | e :: es, iid => if e.1 = iid then e.2 else heapGet es iid

/-- Item-heap update (in-place mutation of a shared item). -/
def heapSet (h : List (ItemId × Item)) (iid : ItemId) (f : Item → Item) :
    List (ItemId × Item) :=
  h.map fun e => if e.1 = iid then (e.1, f e.2) else e

/-- `item.setPos(*origin)`. -/
def setPos (s : AppState) (iid : ItemId) (p : Int × Int) : AppState :=
  { s with items := heapSet s.items iid fun it => { it with pos := p } }

/-- `scene.removeItem(item)`. -/
def sceneRemove (s : AppState) (iid : ItemId) : AppState :=
  { s with items := heapSet s.items iid fun it => { it with inScene := false } }

/-- Allocate a fresh pixmap item, add it to the scene, return its id. -/
def newItem (s : AppState) (content : Img) (pos : Int × Int) :
    AppState × ItemId :=
  ({ s with items := (s.nextItem, ⟨content, pos, true⟩) :: s.items,
            nextItem := s.nextItem + 1 }, s.nextItem)

/-- Content of the cell at `i`: dict lookup followed by reading the
referenced item's pixmap. -/
def contentAt (s : AppState) (i : Index) : Option Img :=
  (dictGet s.images i).map fun iid => (heapGet s.items iid).content

/-- Occupancy of the cell at `i` (membership in `app.images`). -/
def isOccupied (s : AppState) (i : Index) : Bool :=
  (dictGet s.images i).isSome

/-- `utils.history(app, action_type, index, temp, move_type)`: push the
action on the undo list, clear the redo list. -/
def pushHistory (s : AppState) (a : Action) : AppState :=
  { s with undoStack := a :: s.undoStack, redoStack := [] }

/-- Load a snapshot artifact back into memory (`QImage(temp)` /
`QPixmap(temp)` on an existing temp path). -/
def fsGet : List (Path × Img) → Path → Img
  | [], _ => ⟨0, 0, fun _ _ => transparentPix⟩
  | e :: es, p => if e.1 = p then e.2 else fsGet es p

/-- Lookup of a persisted snapshot artifact (see `fileLoad`). -/
def fileLoad (s : AppState) (p : Path) : Img :=
  fsGet s.tempFiles p

/-- `maths.max_row(app)`: the largest row index among occupied cells, `-1`
for an empty grid. -/
def max_row (s : AppState) : Int :=
  match s.images.map fun e => e.1.2 with
  | [] => -1
  | r :: rs => rs.foldl max r

/-- Source-over composition of one source pixel over a destination pixel
(see the module comment for the simplification applied here). -/
def pixOver (src dst : Pix) : Pix :=
  if src.alpha = 0 then dst else src

/-- `painter.drawPixmap(item_pos, pixmap)`: paint one scene item onto a
canvas at its position. -/
def paintItem (canvas : Img) (it : Item) : Img :=
  { canvas with px := fun x y =>
      let rx : Int := (x : Int) - it.pos.1
      let ry : Int := (y : Int) - it.pos.2
      (if 0 ≤ rx ∧ rx < (it.content.width : Int) ∧ 0 ≤ ry ∧ ry < (it.content.height : Int) then
        pixOver (it.content.px rx.toNat ry.toNat) (canvas.px x y)
      else canvas.px x y) }

/-- The canvas pass of `files.create_temp_all`: a transparent pixmap of
size `grid_col × cellWidth` by `(max_row + 1) × cellHeight` with every
scene pixmap item drawn at its position. -/
def renderAll (s : AppState) : Img :=
  let base : Img :=
    { width := grid_col s.cfg * s.cfg.cellWidth,
      height := ((max_row s + 1) * (s.cfg.cellHeight : Int)).toNat,
      px := fun _ _ => transparentPix }
  (s.items.map (·.2)).foldl
    (fun cv it => if it.inScene then paintItem cv it else cv) base

/-- Allocate a fresh temp path and save `im` there; the path is appended
to the session artifact list `app.temp` *before* being returned (the
`with tempfile.NamedTemporaryFile(...)` blocks of `files.create_temp` and
`files.create_temp_all`). -/
def saveTemp (s : AppState) (im : Img) : AppState × Path :=
  ({ s with temp := s.temp ++ [s.nextPath],
            tempFiles := (s.nextPath, im) :: s.tempFiles,
            nextPath := s.nextPath + 1 }, s.nextPath)

/-- `files.create_temp(app, item)`: `None` for an "empty" image (alpha
rule), otherwise persist the item's pixmap to a fresh artifact. -/
def create_temp (s : AppState) (iid : ItemId) : AppState × Option Path :=
  let im := (heapGet s.items iid).content
  if has_valid_pixel im = false then (s, none)
  else
    let pr := saveTemp s im
    (pr.1, some pr.2)

/-- `files.create_temp_all(app)`: composite the whole scene and persist
the result (no alpha-rule check here). -/
def create_temp_all (s : AppState) : AppState × Path :=
  saveTemp s (renderAll s)

/-- `grid_manager.remove_from_grid(app, index, history)`: guarded by the
worker flag; no-op on an empty cell; otherwise snapshot the occupant,
remove it from the scene and the dict, optionally record a DELETE. -/
def remove_from_grid (s : AppState) (i : Index) (history : Bool := false) :
    AppState × Option Path :=
  if s.threadRunning then (s, none)
  else match dictGet s.images i with
  | none => (s, none)
  | some iid =>
    let pr := create_temp s iid
    let s2 := sceneRemove pr.1 iid
    let s3 := { s2 with images := dictDel s2.images i }
    let s4 := if history then pushHistory s3 (.delete i pr.2) else s3
    (s4, pr.2)

/-- `QImage.scaled(w, h, IgnoreAspectRatio, SmoothTransformation)`.  The
smooth resampling kernel is abstracted by coordinate sampling; no theorem
below depends on the pixel values of a genuinely rescaled image, only on
the result dimensions. -/
def scaledImg (im : Img) (w h : Nat) : Img :=
  { width := w, height := h,
    px := fun x y => im.px (x * im.width / w) (y * im.height / h) }

/-- First scaling step of `add_to_grid`: cap the width at the cell
width (height passed through unchanged, axes independent). -/
def capWidth (c : Cfg) (im : Img) : Img :=
  if im.width > c.cellWidth then scaledImg im c.cellWidth im.height else im

/-- Second scaling step of `add_to_grid`: cap the height at the cell
height. -/
def capHeight (c : Cfg) (im : Img) : Img :=
  if im.height > c.cellHeight then scaledImg im im.width c.cellHeight else im

/-- The cell-sized pixmap built by `add_to_grid` and by the load loop:
transparent canvas of exactly the cell size with the image drawn at
`(0, 0)`. -/
def drawOnCanvas (c : Cfg) (im : Img) : Img :=
  { width := c.cellWidth, height := c.cellHeight,
    px := fun x y =>
      (if x < im.width ∧ y < im.height then pixOver (im.px x y) transparentPix
      else transparentPix) }

/-- `grid_manager.add_to_grid(app, image, index, history)`: reject
"empty" images, evict any occupant (via the guarded `remove_from_grid`),
cap both axes independently, draw onto a fresh cell-sized pixmap, insert
at the index and optionally record an ADD.  Note: the function itself
performs neither a bounds check nor a worker-guard check. -/
def add_to_grid (s : AppState) (image : Img) (i : Index)
    (history : Bool := true) : AppState :=
  if has_valid_pixel image = false then s
  else
    let pr := remove_from_grid s i false
    let im2 := capHeight s.cfg (capWidth s.cfg image)
    let content := drawOnCanvas s.cfg im2
    let pr2 := newItem pr.1 content (cell_origin s.cfg i)
    let s3 := { pr2.1 with images := dictSet pr2.1.images i pr2.2 }
    if history then pushHistory s3 (.add i pr.2) else s3

/-- `grid_manager.clear_main_view(app)`: guarded; removes every pixmap
item from the scene and clears the dict. -/
def clear_main_view (s : AppState) : AppState :=
  if s.threadRunning then s
  else { s with
         items := s.items.map fun e => (e.1, { e.2 with inScene := false }),
         images := [] }

/-- `QImage.copy(ox, oy, w, h)`: crop a `w × h` region; areas outside the
source image are zero-filled (transparent). -/
def cropImg (im : Img) (ox oy w h : Nat) : Img :=
  { width := w, height := h,
    px := fun x y =>
      (if x < w ∧ y < h ∧ ox + x < im.width ∧ oy + y < im.height then
        im.px (ox + x) (oy + y)
      else transparentPix) }

/-- One iteration of the cell loop of `grid_manager.load`: crop the cell
region, skip "empty" crops, offset the target by the start index, skip
out-of-bounds targets, evict any occupant and insert the new cell. -/
def load_cell (c : Cfg) (im : Img) (idx : Option Index) (s : AppState)
    (cr : Nat × Nat) : AppState :=
  let o := cell_origin c ((cr.1 : Int), (cr.2 : Int))
  let crop := cropImg im o.1.toNat o.2.toNat c.cellWidth c.cellHeight
  if has_valid_pixel crop = false then s
  else
    let target : Index := match idx with
      | some j => ((cr.1 : Int) + j.1, (cr.2 : Int) + j.2)
      | none => ((cr.1 : Int), (cr.2 : Int))
    if out_of_bounds c target then s
    else
      let s1 := match dictGet s.images target with
        | some iid =>
          let t := sceneRemove s iid
          { t with images := dictDel t.images target }
        | none => s
      let content := drawOnCanvas c crop
      let pr := newItem s1 content (cell_origin c target)
      { pr.1 with images := dictSet pr.1.images target pr.2 }

/-- The (column, row) pairs visited by the loops of `grid_manager.load`:
columns over the whole grid, rows up to
`max(min(image.height // cell_height + 1, grid_row), 1)`. -/
def load_cells (c : Cfg) (im : Img) : List (Nat × Nat) :=
  let rowBound := max (min (im.height / c.cellHeight + 1) (grid_row c)) 1
  (List.range (grid_col c)).flatMap fun col =>
    (List.range rowBound).map fun row => (col, row)

/-- `grid_manager.load(app, image, history, reset, index)` with the image
already supplied (the file prompt is an external collaborator): guarded;
records one OVERHAUL carrying a full-grid snapshot when the grid is
non-empty; optionally resets; then runs the cell loop. -/
def load (s : AppState) (image : Img) (history reset : Bool)
    (idx : Option Index) : AppState :=
  if s.threadRunning then s
  else
    let s1 :=
      if history ∧ s.images ≠ [] then
        let pr := create_temp_all s
        pushHistory pr.1 (.overhaul (some pr.2))
      else s
    let s2 := if reset then clear_main_view s1 else s1
    (load_cells s.cfg image).foldl (load_cell s.cfg image idx) s2

/-- The SWITCH branch of `GraphicsView.mouseReleaseEvent` (shift held):
rebind the occupant of each side to the opposite index; a missing side
leaves the other side's binding in place (a copy, not a swap).  Records
one MOVE/SWITCH action.  The event handler returns before this point when
the worker guard is set or the two drag indexes coincide. -/
def move_switch (s : AppState) (a b : Index) : AppState :=
  if s.threadRunning then s
  else if a = b then s
  else
    let itA := dictGet s.images a
    let itB := dictGet s.images b
    let s1 := match itA with
      | some iid =>
        let t := setPos s iid (cell_origin s.cfg b)
        { t with images := dictSet t.images b iid }
      | none => s
    let s2 := match itB with
      | some iid =>
        let t := setPos s1 iid (cell_origin s1.cfg a)
        { t with images := dictSet t.images a iid }
      | none => s1
    pushHistory s2 (.move a b none .SWITCH)

/-- The OVERWRITE branch of `GraphicsView.mouseReleaseEvent`: snapshot
and evict the occupant of the target cell, then relocate the dragged
item; records one MOVE/OVERWRITE action carrying that snapshot.  (The
dragged item exists because a drag only starts on an occupied cell; the
`none` case below is unreachable from the UI.) -/
def move_overwrite (s : AppState) (a b : Index) : AppState :=
  if s.threadRunning then s
  else if a = b then s
  else
    let pr := if isOccupied s b then remove_from_grid s b false else (s, none)
    match dictGet pr.1.images a with
    | some iid =>
      let t := setPos pr.1 iid (cell_origin pr.1.cfg b)
      let t2 := { t with images := dictDel (dictSet t.images b iid) a }
      pushHistory t2 (.move a b pr.2 .OVERWRITE)
    | none => pr.1

/-- `misc.delete_temp_files(app)`: delete every file listed in `app.temp`,
skipping paths that no longer exist on disk. -/
def delete_temp_files (s : AppState) : AppState :=
  { s with tempFiles := s.tempFiles.filter fun e => !(decide (e.1 ∈ s.temp)) }

/-- The ways `image_manipulation.undo`/`redo` can raise: a `KeyError`
from a direct `images[...]` subscript on a missing key, or a `TypeError`
from `QImage(None)` when an action carries no snapshot where one is
required. -/
inductive Fault where
  | keyErr
  | typeErr
  deriving Repr, DecidableEq

/-- `image_manipulation.undo(app)`: pop the last action and apply its
inversion, pushing the computed inverse onto the redo list.  There is no
worker-guard check at this level (only inside the helpers it calls). -/
def undoStep (s : AppState) : Except Fault AppState :=
  match s.undoStack with
  | [] => .ok s
  | act :: rest =>
    let s0 := { s with undoStack := rest }
    match act with
    | .add i temp =>
      match dictGet s0.images i with
      | none => .error .keyErr
      | some _ =>
        let pr := remove_from_grid s0 i false
        let s2 := match temp with
          | some p =>
            let im := fileLoad pr.1 p
            let pr2 := newItem pr.1 im (cell_origin pr.1.cfg i)
            { pr2.1 with images := dictSet pr2.1.images i pr2.2 }
          | none => pr.1
        .ok { s2 with redoStack := .add i pr.2 :: s2.redoStack }
    | .delete i temp =>
      match temp with
      | none => .error .typeErr
      | some p =>
        let s1 := add_to_grid s0 (fileLoad s0 p) i false
        .ok { s1 with redoStack := .delete i none :: s1.redoStack }
    | .move a b _ .SWITCH =>
      let itA := dictGet s0.images a
      let itB := dictGet s0.images b
      let s1 := match itA with
        | some iid =>
          let t := setPos s0 iid (cell_origin s0.cfg b)
          { t with images := dictSet t.images b iid }
        | none => s0
      let s2 := match itB with
        | some iid =>
          let t := setPos s1 iid (cell_origin s1.cfg a)
          { t with images := dictSet t.images a iid }
        | none => s1
      .ok { s2 with redoStack := .move a b none .SWITCH :: s2.redoStack }
    | .move a b temp .OVERWRITE =>
      match dictGet s0.images b with
      | none => .error .keyErr
      | some iid =>
        let t := { s0 with images := dictDel (dictSet s0.images a iid) b }
        let t3 := setPos t iid (cell_origin t.cfg a)
        let t4 := match temp with
          | some p => add_to_grid t3 (fileLoad t3 p) b false
          | none => t3
        .ok { t4 with redoStack := .move a b none .OVERWRITE :: t4.redoStack }
    | .overhaul temp =>
      let pr := create_temp_all s0
      let s2 := match temp with
        | some t => load pr.1 (fileLoad pr.1 t) false true none
        | none => clear_main_view pr.1
      .ok { s2 with redoStack := .overhaul (some pr.2) :: s2.redoStack }

/-- `image_manipulation.redo(app)`: symmetric to `undo`, popping the redo
list and pushing the recomputed action back onto the undo list. -/
def redoStep (s : AppState) : Except Fault AppState :=
  match s.redoStack with
  | [] => .ok s
  | act :: rest =>
    let s0 := { s with redoStack := rest }
    match act with
    | .add i temp =>
      match temp with
      | none => .error .typeErr
      | some p =>
        let pr := remove_from_grid s0 i false
        let s1 := add_to_grid pr.1 (fileLoad pr.1 p) i false
        .ok { s1 with undoStack := .add i pr.2 :: s1.undoStack }
    | .delete i _ =>
      let pr := remove_from_grid s0 i false
      .ok { pr.1 with undoStack := .delete i pr.2 :: pr.1.undoStack }
    | .move a b _ .SWITCH =>
      match dictGet s0.images a, dictGet s0.images b with
      | some ia, some ib =>
        let t := setPos s0 ia (cell_origin s0.cfg b)
        let t1 := { t with images := dictSet t.images b ia }
        let t2 := setPos t1 ib (cell_origin t1.cfg a)
        let t3 := { t2 with images := dictSet t2.images a ib }
        .ok { t3 with undoStack := .move a b none .SWITCH :: t3.undoStack }
      | _, _ => .error .keyErr
    | .move a b _ .OVERWRITE =>
      let pr := remove_from_grid s0 b false
      match dictGet pr.1.images a with
      | none => .error .keyErr
      | some iid =>
        let t := setPos pr.1 iid (cell_origin pr.1.cfg b)
        let t2 := { t with images := dictDel (dictSet t.images b iid) a }
        .ok { t2 with undoStack := .move a b pr.2 .OVERWRITE :: t2.undoStack }
    | .overhaul temp =>
      let pr := create_temp_all s0
      let s2 := match temp with
        | some t => load pr.1 (fileLoad pr.1 t) false true none
        | none => clear_main_view pr.1
      .ok { s2 with undoStack := .overhaul (some pr.2) :: s2.undoStack }

/-- One `undo(); redo();` pair, `none` when either step raises. -/
def undoRedoPair (s : AppState) : Option AppState :=
  match undoStep s with
  | .ok t =>
    match redoStep t with
    | .ok u => some u
    | .error _ => none
  | .error _ => none

/-- Iterating the `undo(); redo();` pair. -/
def iterPair : Nat → AppState → Option AppState
  | 0, s => some s
  | n + 1, s => (undoRedoPair s).bind (iterPair n)

/-- Equivalence of optional cell contents. -/
def OptImgEquiv : Option Img → Option Img → Prop
  | none, none => True
  | some a, some b => Img.Equiv a b
  | _, _ => False

/-- "Bit-identical CellStore content": the same occupied indices with the
same pixel data (snapshot file identity and item identity excluded, as
the specification demands). -/
def StoreEq (s t : AppState) : Prop :=
  ∀ i, OptImgEquiv (contentAt s i) (contentAt t i)

/-- Whether a history operation completed without raising. -/
def stepOk : Except Fault AppState → Bool
  | .ok _ => true
  | .error _ => false

/-- Well-formedness of the top of the undo list relative to the live
store, as `undo` requires it: a recorded ADD's index is still occupied
(its `images[index]` subscript), a recorded DELETE carries a snapshot
(`QImage(None)` otherwise), and the occupant a recorded MOVE/OVERWRITE
moved to `b` is present there.  A SWITCH or OVERHAUL top and the empty
list impose no condition. -/
def UndoTopOK (s : AppState) : Prop :=
  match s.undoStack with
  | [] => True
  | Action.add i _ :: _ => (dictGet s.images i).isSome = true
  | Action.delete _ temp :: _ => temp.isSome = true
  | Action.move _ _ _ MoveKind.SWITCH :: _ => True
  | Action.move _ b _ MoveKind.OVERWRITE :: _ => (dictGet s.images b).isSome = true
  | Action.overhaul _ :: _ => True

/-- Well-formedness of the top of the redo list, as `redo` requires it: a
recorded ADD carries a snapshot, a replayed SWITCH finds both cells
occupied, and a replayed OVERWRITE finds its source cell `a` occupied
after the occupant of `b` is evicted. -/
def RedoTopOK (s : AppState) : Prop :=
  match s.redoStack with
  | [] => True
  | Action.add _ temp :: _ => temp.isSome = true
  | Action.delete _ _ :: _ => True
  | Action.move a b _ MoveKind.SWITCH :: _ =>
      (dictGet s.images a).isSome = true ∧ (dictGet s.images b).isSome = true
  | Action.move a b _ MoveKind.OVERWRITE :: rest =>
      (dictGet (remove_from_grid { s with redoStack := rest } b
        false).1.images a).isSome = true
  | Action.overhaul _ :: _ => True

/-- In-bounds normalisation: fully transparent pixels carry no colour
payload (premultiplied ARGB). -/
def Img.Norm (a : Img) : Prop :=
  ∀ x y, x < a.width → y < a.height → (a.px x y).alpha = 0 →
    a.px x y = transparentPix

/-- Allocation sanity: every dict value refers to an already-allocated
item id. -/
def IdsOK (s : AppState) : Prop := ∀ e ∈ s.images, e.2 < s.nextItem

/-- A stored cell pixmap as `add_to_grid` and the load loop produce them:
exactly cell-sized, valid under the alpha rule, and normalised. -/
def GoodCell (c : Cfg) (im : Img) : Prop :=
  im.width = c.cellWidth ∧ im.height = c.cellHeight ∧
    has_valid_pixel im = true ∧ Img.Norm im

/-- Whether the scene item `it` paints the device pixel `(x, y)` (the
rectangle test of `paintItem`). -/
def Covers (it : Item) (x y : Nat) : Prop :=
  0 ≤ (x : Int) - it.pos.1 ∧ (x : Int) - it.pos.1 < (it.content.width : Int) ∧
    0 ≤ (y : Int) - it.pos.2 ∧ (y : Int) - it.pos.2 < (it.content.height : Int)

/-- The scene faithfully renders the images dict: every occupied cell is
in bounds and its item sits at the cell origin, in scene, with a
well-formed cell pixmap; dict keys, dict item references and heap ids are
duplicate-free; and every in-scene pixmap item is referenced by some
cell.  These are exactly the invariants `create_temp_all`'s composite
needs in order to capture the store, and they fail precisely on the
aliased stores that one-sided SWITCH moves create. -/
def FaithfulScene (s : AppState) : Prop :=
  (∀ e ∈ s.images, out_of_bounds s.cfg e.1 = false) ∧
  (∀ e ∈ s.images,
    (heapGet s.items e.2).pos = cell_origin s.cfg e.1 ∧
    (heapGet s.items e.2).inScene = true ∧
    GoodCell s.cfg (heapGet s.items e.2).content) ∧
  (s.images.map fun e => e.1).Nodup ∧
  (s.images.map fun e => e.2).Nodup ∧
  (∀ e ∈ s.items, e.2.inScene = true → ∃ i, dictGet s.images i = some e.1) ∧
  (s.items.map fun e => e.1).Nodup

/-- Safety of one `undo(); redo();` pair: no worker running, a sane
configuration, allocated ids, and the data conditions on the top of the
undo list that a recorded mutation leaves behind (an empty redo list when
there is nothing to undo). -/
def PairSafe (s : AppState) : Prop :=
  s.threadRunning = false ∧ CfgOK s.cfg ∧ IdsOK s ∧
  match s.undoStack with
  | [] => s.redoStack = []
  | Action.add i _ :: _ =>
      ∃ iid, dictGet s.images i = some iid ∧
        GoodCell s.cfg (heapGet s.items iid).content
  | Action.delete i temp :: _ =>
      dictGet s.images i = none ∧
        ∃ p, temp = some p ∧ GoodCell s.cfg (fileLoad s p)
  | Action.move a b _ MoveKind.SWITCH :: _ =>
      a ≠ b ∧ (∃ ia, dictGet s.images a = some ia) ∧
        ∃ ib, dictGet s.images b = some ib
  | Action.move a b temp MoveKind.OVERWRITE :: _ =>
      a ≠ b ∧ dictGet s.images a = none ∧
        (∃ ib, dictGet s.images b = some ib) ∧
        (temp = none ∨ ∃ p, temp = some p ∧ GoodCell s.cfg (fileLoad s p))
  | Action.overhaul _ :: _ => FaithfulScene s

/-- The crop the cell loop of `load` takes for the loop position `cr`. -/
def cellCrop (c : Cfg) (im : Img) (cr : Nat × Nat) : Img :=
  cropImg im (cell_origin c ((cr.1 : Int), (cr.2 : Int))).1.toNat
    (cell_origin c ((cr.1 : Int), (cr.2 : Int))).2.toNat
    c.cellWidth c.cellHeight

/-! ### Basic lemmas about the dictionary and the item heap -/

theorem dictGet_set_self (d : List (Index × ItemId)) (i : Index) (v : ItemId) :
    dictGet (dictSet d i v) i = some v := by
  simp [dictGet, dictSet]

theorem dictGet_set_ne (d : List (Index × ItemId)) (i j : Index) (v : ItemId)
    (h : j ≠ i) : dictGet (dictSet d i v) j = dictGet d j := by
  rw [dictSet, dictGet, if_neg (fun hij => h hij.symm)]
  induction d with
  | nil => rfl
  | cons e es ih =>
    by_cases he : e.1 = i
    · rw [List.filter_cons_of_neg (by simpa using he), dictGet,
        if_neg (fun hej : e.1 = j => h (hej ▸ he)), ih]
    · rw [List.filter_cons_of_pos (by simpa using he)]
      by_cases hej : e.1 = j
      · rw [dictGet, if_pos hej, dictGet, if_pos hej]
      · rw [dictGet, if_neg hej, dictGet, if_neg hej, ih]

theorem dictGet_del_self (d : List (Index × ItemId)) (i : Index) :
    dictGet (dictDel d i) i = none := by
  rw [dictDel]
  induction d with
  | nil => rfl
  | cons e es ih =>
    by_cases he : e.1 = i
    · rw [List.filter_cons_of_neg (by simpa using he)]; exact ih
    · rw [List.filter_cons_of_pos (by simpa using he), dictGet, if_neg he]
      exact ih

theorem dictGet_del_ne (d : List (Index × ItemId)) (i j : Index)
    (h : j ≠ i) : dictGet (dictDel d i) j = dictGet d j := by
  rw [dictDel]
  induction d with
  | nil => rfl
  | cons e es ih =>
    by_cases he : e.1 = i
    · rw [List.filter_cons_of_neg (by simpa using he), dictGet,
        if_neg (fun hej : e.1 = j => h (hej ▸ he)), ih]
    · rw [List.filter_cons_of_pos (by simpa using he)]
      by_cases hej : e.1 = j
      · rw [dictGet, if_pos hej, dictGet, if_pos hej]
      · rw [dictGet, if_neg hej, dictGet, if_neg hej, ih]

theorem heapGet_set_content (hp : List (ItemId × Item)) (iid j : ItemId)
    (f : Item → Item) (hf : ∀ it, (f it).content = it.content) :
    (heapGet (heapSet hp iid f) j).content = (heapGet hp j).content := by
  rw [heapSet]
  induction hp with
  | nil => rfl
  | cons e es ih =>
    rw [List.map_cons]
    by_cases hei : e.1 = iid
    · rw [if_pos hei]
      by_cases he : e.1 = j
      · rw [heapGet, if_pos he, heapGet, if_pos he]; exact hf e.2
      · rw [heapGet, if_neg he, heapGet, if_neg he]; exact ih
    · rw [if_neg hei]
      by_cases he : e.1 = j
      · rw [heapGet, if_pos he, heapGet, if_pos he]
      · rw [heapGet, if_neg he, heapGet, if_neg he]; exact ih

theorem heapGet_cons_self (hp : List (ItemId × Item)) (n : ItemId) (it : Item) :
    heapGet ((n, it) :: hp) n = it := by
  simp [heapGet]

theorem heapGet_cons_ne (hp : List (ItemId × Item)) (n j : ItemId) (it : Item)
    (h : j ≠ n) : heapGet ((n, it) :: hp) j = heapGet hp j := by
  rw [heapGet, if_neg (fun hn => h hn.symm)]

/-! ### Basic lemmas about images and the alpha rule -/

/-- `has_valid_pixel` expressed as a bounded existential. -/
theorem has_valid_pixel_iff (im : Img) :
    has_valid_pixel im = true ↔
      ∃ x y, x < im.width ∧ y < im.height ∧ 25 < (im.px x y).alpha := by
  simp only [has_valid_pixel, List.any_eq_true, List.mem_range,
    decide_eq_true_eq]
  constructor
  · rintro ⟨y, hy, x, hx, h⟩
    exact ⟨x, y, hx, hy, h⟩
  · rintro ⟨x, y, hx, hy, h⟩
    exact ⟨y, hy, x, hx, h⟩

/-- `has_valid_pixel` is a congruence for extensional image equality. -/
theorem has_valid_pixel_congr {a b : Img} (h : Img.Equiv a b) :
    has_valid_pixel a = has_valid_pixel b := by
  obtain ⟨hw, hh, hp⟩ := h
  cases hb : has_valid_pixel b with
  | true =>
    obtain ⟨x, y, hx, hy, hα⟩ := (has_valid_pixel_iff b).mp hb
    exact (has_valid_pixel_iff a).mpr
      ⟨x, y, hw ▸ hx, hh ▸ hy, by rw [hp x y (hw ▸ hx) (hh ▸ hy)]; exact hα⟩
  | false =>
    by_contra hcon
    rw [Bool.not_eq_false] at hcon
    obtain ⟨x, y, hx, hy, hα⟩ := (has_valid_pixel_iff a).mp hcon
    have : has_valid_pixel b = true := (has_valid_pixel_iff b).mpr
      ⟨x, y, hw ▸ hx, hh ▸ hy, by rw [← hp x y hx hy]; exact hα⟩
    rw [this] at hb
    cases hb

/-- An all-transparent region has no valid pixel. -/
theorem has_valid_pixel_of_transparent (im : Img)
    (h : ∀ x y, x < im.width → y < im.height → im.px x y = transparentPix) :
    has_valid_pixel im = false := by
  by_contra hcon
  rw [Bool.not_eq_false] at hcon
  obtain ⟨x, y, hx, hy, hα⟩ := (has_valid_pixel_iff im).mp hcon
  rw [h x y hx hy] at hα
  simp [transparentPix] at hα

/-- The pixel-level alpha of `pixOver src transparentPix` is that of
`src`, and the composite is normalised. -/
theorem pixOver_transparent_alpha (src : Pix) :
    (pixOver src transparentPix).alpha = src.alpha := by
  by_cases h : src.alpha = 0 <;> simp [pixOver, h, transparentPix]

/-- `drawOnCanvas` has exactly the cell dimensions. -/
theorem drawOnCanvas_dims (c : Cfg) (im : Img) :
    (drawOnCanvas c im).width = c.cellWidth ∧
      (drawOnCanvas c im).height = c.cellHeight := ⟨rfl, rfl⟩

/-- Drawing a cell-sized image on the cell canvas reproduces it up to
normalisation; for a normalised image the result is pixel-identical. -/
theorem drawOnCanvas_equiv (c : Cfg) (im : Img)
    (hw : im.width = c.cellWidth) (hh : im.height = c.cellHeight)
    (hn : Img.Norm im) : Img.Equiv (drawOnCanvas c im) im := by
  refine ⟨by simp [drawOnCanvas, hw], by simp [drawOnCanvas, hh], ?_⟩
  intro x y hx hy
  simp only [drawOnCanvas] at hx hy ⊢
  rw [if_pos ⟨by omega, by omega⟩]
  by_cases hα : (im.px x y).alpha = 0
  · rw [pixOver, if_pos hα, hn x y (by omega) (by omega) hα]
  · rw [pixOver, if_neg hα]

/-- `drawOnCanvas` output is always normalised. -/
theorem drawOnCanvas_norm (c : Cfg) (im : Img) : Img.Norm (drawOnCanvas c im) := by
  intro x y _ _ hα
  simp only [drawOnCanvas] at hα ⊢
  by_cases hin : x < im.width ∧ y < im.height
  · rw [if_pos hin] at hα ⊢
    by_cases h0 : (im.px x y).alpha = 0
    · rw [pixOver, if_pos h0]
    · rw [pixOver, if_neg h0] at hα ⊢
      exact absurd hα h0
  · rw [if_neg hin]

/-- Alpha values are preserved pointwise by `drawOnCanvas` on a
cell-sized source, hence so is validity. -/
theorem has_valid_pixel_drawOnCanvas (c : Cfg) (im : Img)
    (hw : im.width = c.cellWidth) (hh : im.height = c.cellHeight) :
    has_valid_pixel (drawOnCanvas c im) = has_valid_pixel im := by
  cases hv : has_valid_pixel im with
  | true =>
    obtain ⟨x, y, hx, hy, hα⟩ := (has_valid_pixel_iff im).mp hv
    refine (has_valid_pixel_iff _).mpr ⟨x, y, ?_, ?_, ?_⟩
    · simpa [drawOnCanvas, ← hw]
    · simpa [drawOnCanvas, ← hh]
    · simp only [drawOnCanvas]
      rw [if_pos ⟨hx, hy⟩, pixOver_transparent_alpha]
      exact hα
  | false =>
    by_contra hcon
    rw [Bool.not_eq_false] at hcon
    obtain ⟨x, y, hx, hy, hα⟩ := (has_valid_pixel_iff _).mp hcon
    simp only [drawOnCanvas] at hx hy hα
    by_cases hin : x < im.width ∧ y < im.height
    · rw [if_pos hin, pixOver_transparent_alpha] at hα
      have : has_valid_pixel im = true :=
        (has_valid_pixel_iff im).mpr ⟨x, y, hin.1, hin.2, hα⟩
      rw [this] at hv; cases hv
    · rw [if_neg hin] at hα
      simp [transparentPix] at hα

theorem foldl_max_mem (r : Int) (rs : List Int) : rs.foldl max r ∈ r :: rs := by
  induction rs generalizing r with
  | nil => simp
  | cons a as ih =>
    simp only [List.foldl_cons]
    rcases List.mem_cons.mp (ih (max r a)) with h1 | h1
    · rw [h1]
      rcases max_choice r a with hm | hm <;> rw [hm]
      · exact List.mem_cons_self _ _
      · exact List.mem_cons_of_mem _ (List.mem_cons_self _ _)
    · exact List.mem_cons_of_mem _ (List.mem_cons_of_mem _ h1)

theorem foldl_max_ge (r : Int) (rs : List Int) :
    ∀ x ∈ r :: rs, x ≤ rs.foldl max r := by
  induction rs generalizing r with
  | nil => simp
  | cons a as ih =>
    intro x hx
    simp only [List.foldl_cons]
    rcases List.mem_cons.mp hx with h1 | h1
    · subst h1
      exact le_trans (le_max_left x a) (ih (max x a) _ (List.mem_cons_self _ _))
    · rcases List.mem_cons.mp h1 with h2 | h2
      · subst h2
        exact le_trans (le_max_right r x) (ih (max r x) _ (List.mem_cons_self _ _))
      · exact ih (max r a) x (List.mem_cons_of_mem _ h2)

/-- `max_row` bounds every occupied row. -/
theorem max_row_ge (s : AppState) (e : Index × ItemId) (he : e ∈ s.images) :
    e.1.2 ≤ max_row s := by
  have hmem : e.1.2 ∈ s.images.map fun q => q.1.2 :=
    List.mem_map.mpr ⟨e, he, rfl⟩
  unfold max_row
  split
  next heq => rw [heq] at hmem; cases hmem
  next r rs heq => rw [heq] at hmem; exact foldl_max_ge r rs _ hmem

/-- `max_row` is attained by some occupied cell when the grid is
non-empty. -/
theorem max_row_mem (s : AppState) (h : s.images ≠ []) :
    ∃ e ∈ s.images, e.1.2 = max_row s := by
  unfold max_row
  split
  next heq => exact absurd heq (by simpa using h)
  next r rs heq =>
    have hmem : rs.foldl max r ∈ s.images.map fun q => q.1.2 := by
      rw [heq]; exact foldl_max_mem r rs
    obtain ⟨e, he, heq2⟩ := List.mem_map.mp hmem
    exact ⟨e, he, heq2⟩

/-! ### Step lemmas for `remove_from_grid` -/

theorem remove_thread (s : AppState) (i : Index) (hist : Bool)
    (h : s.threadRunning = true) :
    remove_from_grid s i hist = (s, none) := by
  unfold remove_from_grid; simp [h]

theorem remove_unoccupied (s : AppState) (i : Index) (hist : Bool)
    (h : dictGet s.images i = none) :
    remove_from_grid s i hist = (s, none) := by
  unfold remove_from_grid
  by_cases ht : s.threadRunning
  · simp [ht]
  · simp [ht, h]

theorem remove_occupied_valid (s : AppState) (i : Index) (iid : ItemId)
    (ht : s.threadRunning = false) (hocc : dictGet s.images i = some iid)
    (hv : has_valid_pixel (heapGet s.items iid).content = true) :
    remove_from_grid s i false =
      ({ s with
          temp := s.temp ++ [s.nextPath],
          tempFiles := (s.nextPath, (heapGet s.items iid).content) :: s.tempFiles,
          nextPath := s.nextPath + 1,
          items := heapSet s.items iid fun it => { it with inScene := false },
          images := dictDel s.images i },
        some s.nextPath) := by
  unfold remove_from_grid
  rw [if_neg (by simp [ht]), hocc]
  unfold create_temp saveTemp sceneRemove
  simp [hv]

theorem remove_occupied_invalid (s : AppState) (i : Index) (iid : ItemId)
    (ht : s.threadRunning = false) (hocc : dictGet s.images i = some iid)
    (hv : has_valid_pixel (heapGet s.items iid).content = false) :
    remove_from_grid s i false =
      ({ s with
          items := heapSet s.items iid fun it => { it with inScene := false },
          images := dictDel s.images i },
        none) := by
  unfold remove_from_grid
  rw [if_neg (by simp [ht]), hocc]
  unfold create_temp saveTemp sceneRemove
  simp [hv]

/-- The removal result, read through `contentAt` (no-history variant):
the target cell becomes empty, every other cell keeps its content. -/
theorem remove_contentAt (s : AppState) (i : Index)
    (ht : s.threadRunning = false) (j : Index) :
    contentAt (remove_from_grid s i false).1 j =
      if j = i then none else contentAt s j := by
  rcases hocc : dictGet s.images i with _ | iid
  · rw [remove_unoccupied s i false hocc]
    by_cases hj : j = i
    · subst hj; simp [contentAt, hocc]
    · rw [if_neg hj]
  · rcases hv : has_valid_pixel (heapGet s.items iid).content with _ | _
    · rw [remove_occupied_invalid s i iid ht hocc hv]
      by_cases hj : j = i
      · subst hj; simp [contentAt, dictGet_del_self]
      · rw [if_neg hj]
        simp only [contentAt, dictGet_del_ne _ _ _ hj]
        rcases dictGet s.images j with _ | jid
        · rfl
        · exact congrArg some (heapGet_set_content s.items iid jid
            (fun it => { it with inScene := false }) (fun _ => rfl))
    · rw [remove_occupied_valid s i iid ht hocc hv]
      by_cases hj : j = i
      · subst hj; simp [contentAt, dictGet_del_self]
      · rw [if_neg hj]
        simp only [contentAt, dictGet_del_ne _ _ _ hj]
        rcases dictGet s.images j with _ | jid
        · rfl
        · exact congrArg some (heapGet_set_content s.items iid jid
            (fun it => { it with inScene := false }) (fun _ => rfl))

theorem remove_frame (s : AppState) (i : Index) :
    (remove_from_grid s i false).1.cfg = s.cfg ∧
      (remove_from_grid s i false).1.threadRunning = s.threadRunning ∧
      (remove_from_grid s i false).1.nextItem = s.nextItem ∧
      (remove_from_grid s i false).1.undoStack = s.undoStack ∧
      (remove_from_grid s i false).1.redoStack = s.redoStack := by
  by_cases ht : s.threadRunning
  · rw [remove_thread s i false ht]; exact ⟨rfl, rfl, rfl, rfl, rfl⟩
  · rcases hocc : dictGet s.images i with _ | iid
    · rw [remove_unoccupied s i false hocc]; exact ⟨rfl, rfl, rfl, rfl, rfl⟩
    · rcases hv : has_valid_pixel (heapGet s.items iid).content with _ | _
      · rw [remove_occupied_invalid s i iid (by simpa using ht) hocc hv]
        exact ⟨rfl, rfl, rfl, rfl, rfl⟩
      · rw [remove_occupied_valid s i iid (by simpa using ht) hocc hv]
        exact ⟨rfl, rfl, rfl, rfl, rfl⟩

theorem remove_heap_content (s : AppState) (i : Index) (j : ItemId) :
    (heapGet (remove_from_grid s i false).1.items j).content =
      (heapGet s.items j).content := by
  by_cases ht : s.threadRunning
  · rw [remove_thread s i false ht]
  · rcases hocc : dictGet s.images i with _ | iid
    · rw [remove_unoccupied s i false hocc]
    · rcases hv : has_valid_pixel (heapGet s.items iid).content with _ | _
      · rw [remove_occupied_invalid s i iid (by simpa using ht) hocc hv]
        exact heapGet_set_content s.items iid j
          (fun it => { it with inScene := false }) (fun _ => rfl)
      · rw [remove_occupied_valid s i iid (by simpa using ht) hocc hv]
        exact heapGet_set_content s.items iid j
          (fun it => { it with inScene := false }) (fun _ => rfl)

/-- The snapshot produced when removing an occupied cell with valid
content: a fresh path holding exactly the evicted pixel data; older
artifacts remain readable. -/
theorem remove_snapshot (s : AppState) (i : Index) (iid : ItemId)
    (ht : s.threadRunning = false) (hocc : dictGet s.images i = some iid)
    (hv : has_valid_pixel (heapGet s.items iid).content = true) :
    (remove_from_grid s i false).2 = some s.nextPath ∧
      fsGet (remove_from_grid s i false).1.tempFiles s.nextPath =
        (heapGet s.items iid).content ∧
      (remove_from_grid s i false).1.nextPath = s.nextPath + 1 ∧
      (∀ q, q ≠ s.nextPath →
        fsGet (remove_from_grid s i false).1.tempFiles q = fsGet s.tempFiles q) := by
  rw [remove_occupied_valid s i iid ht hocc hv]
  refine ⟨rfl, by simp [fsGet], rfl, ?_⟩
  intro q hq
  simp only [fsGet]
  rw [if_neg (fun h => hq h.symm)]

/-! ### Step lemmas for `add_to_grid` -/

theorem dictGet_mem {d : List (Index × ItemId)} {j : Index} {v : ItemId}
    (h : dictGet d j = some v) : (j, v) ∈ d := by
  induction d with
  | nil => cases h
  | cons e es ih =>
    rcases e with ⟨a, b⟩
    rw [dictGet] at h
    by_cases he : a = j
    · rw [if_pos (by simpa using he)] at h
      injection h with h2
      subst he
      subst h2
      exact List.mem_cons_self _ _
    · rw [if_neg (by simpa using he)] at h
      exact List.mem_cons_of_mem _ (ih h)

theorem mem_dictSet {d : List (Index × ItemId)} {i j : Index} {v w : ItemId}
    (h : (j, w) ∈ dictSet d i v) : (j, w) = (i, v) ∨ (j, w) ∈ d := by
  rcases List.mem_cons.mp h with h1 | h1
  · exact Or.inl h1
  · exact Or.inr (List.mem_of_mem_filter h1)

theorem mem_dictDel {d : List (Index × ItemId)} {i : Index} {e : Index × ItemId}
    (h : e ∈ dictDel d i) : e ∈ d :=
  List.mem_of_mem_filter h

/-- A rejected image leaves the state untouched. -/
theorem add_invalid (s : AppState) (im : Img) (i : Index) (hist : Bool)
    (hv : has_valid_pixel im = false) :
    add_to_grid s im i hist = s := by
  unfold add_to_grid
  rw [hv]
  rfl

/-- Normal form of a successful add, with the intermediate `let`s of the
source spelled out. -/
theorem add_core (s : AppState) (im : Img) (i : Index) (hist : Bool)
    (hv : has_valid_pixel im = true) :
    add_to_grid s im i hist =
      (let pr := remove_from_grid s i false
       let s3 : AppState :=
         { pr.1 with
           items := (pr.1.nextItem,
             ⟨drawOnCanvas s.cfg (capHeight s.cfg (capWidth s.cfg im)),
              cell_origin s.cfg i, true⟩) :: pr.1.items,
           nextItem := pr.1.nextItem + 1,
           images := dictSet pr.1.images i pr.1.nextItem }
       if hist then pushHistory s3 (.add i pr.2) else s3) := by
  unfold add_to_grid
  rw [hv]
  rfl

/-- The cell content stored by a successful add: the capped image drawn
on a fresh cell-sized canvas. -/
theorem add_contentAt_self (s : AppState) (im : Img) (i : Index) (hist : Bool)
    (hv : has_valid_pixel im = true) :
    contentAt (add_to_grid s im i hist) i =
      some (drawOnCanvas s.cfg (capHeight s.cfg (capWidth s.cfg im))) := by
  rw [add_core s im i hist hv]
  cases hist <;>
    simp [contentAt, pushHistory, dictGet_set_self, heapGet_cons_self]

/-- A successful add leaves every other cell's content unchanged. -/
theorem add_contentAt_ne (s : AppState) (im : Img) (i j : Index) (hist : Bool)
    (hv : has_valid_pixel im = true) (ht : s.threadRunning = false)
    (hids : IdsOK s) (hj : j ≠ i) :
    contentAt (add_to_grid s im i hist) j = contentAt s j := by
  rw [add_core s im i hist hv]
  have hnext : (remove_from_grid s i false).1.nextItem = s.nextItem :=
    (remove_frame s i).2.2.1
  have hdict : dictGet (remove_from_grid s i false).1.images j = dictGet s.images j := by
    rcases hx : dictGet s.images i with _ | iid
    · rw [remove_unoccupied s i false hx]
    · rcases hvv : has_valid_pixel (heapGet s.items iid).content with _ | _
      · rw [remove_occupied_invalid s i iid ht hx hvv]
        exact dictGet_del_ne _ _ _ hj
      · rw [remove_occupied_valid s i iid ht hx hvv]
        exact dictGet_del_ne _ _ _ hj
  have hcore : ∀ t : AppState, t.images = dictSet (remove_from_grid s i false).1.images i
        (remove_from_grid s i false).1.nextItem →
      t.items = ((remove_from_grid s i false).1.nextItem,
        ⟨drawOnCanvas s.cfg (capHeight s.cfg (capWidth s.cfg im)),
         cell_origin s.cfg i, true⟩) :: (remove_from_grid s i false).1.items →
      contentAt t j = contentAt s j := by
    intro t h1 h2
    unfold contentAt
    rw [h1, h2, dictGet_set_ne _ _ _ _ hj, hdict]
    rcases hg2 : dictGet s.images j with _ | w
    · rfl
    · have hw : w < s.nextItem := hids _ (dictGet_mem hg2)
      have hne : w ≠ s.nextItem := Nat.ne_of_lt hw
      simp only [Option.map]
      rw [hnext, heapGet_cons_ne _ _ _ _ hne]
      exact congrArg some (remove_heap_content s i w)
  cases hist
  · exact hcore _ rfl rfl
  · exact hcore _ rfl rfl

/-- Effect of a successful add on the history stacks. -/
theorem add_stacks (s : AppState) (im : Img) (i : Index)
    (hv : has_valid_pixel im = true) :
    (add_to_grid s im i true).undoStack =
        Action.add i (remove_from_grid s i false).2 :: s.undoStack ∧
      (add_to_grid s im i true).redoStack = [] ∧
      (add_to_grid s im i false).undoStack = s.undoStack ∧
      (add_to_grid s im i false).redoStack = s.redoStack := by
  rw [add_core s im i true hv, add_core s im i false hv]
  have h1 := (remove_frame s i).2.2.2.1
  have h2 := (remove_frame s i).2.2.2.2
  exact ⟨by simp [pushHistory, h1], by simp [pushHistory], by simpa using h1,
    by simpa using h2⟩

/-- Frame facts for a successful add. -/
theorem add_frame (s : AppState) (im : Img) (i : Index) (hist : Bool)
    (hv : has_valid_pixel im = true) :
    (add_to_grid s im i hist).cfg = s.cfg ∧
      (add_to_grid s im i hist).threadRunning = s.threadRunning ∧
      (add_to_grid s im i hist).nextItem = s.nextItem + 1 := by
  rw [add_core s im i hist hv]
  have h1 := (remove_frame s i).1
  have h2 := (remove_frame s i).2.1
  have h3 := (remove_frame s i).2.2.1
  cases hist <;>
    exact ⟨by simpa [pushHistory] using h1, by simpa [pushHistory] using h2,
      by simp [pushHistory, h3]⟩

/-- A successful add keeps the allocation invariant. -/
theorem add_IdsOK (s : AppState) (im : Img) (i : Index) (hist : Bool)
    (hids : IdsOK s) : IdsOK (add_to_grid s im i hist) := by
  rcases hv : has_valid_pixel im with _ | _
  · rw [add_invalid s im i hist hv]; exact hids
  · have hnext : (remove_from_grid s i false).1.nextItem = s.nextItem :=
      (remove_frame s i).2.2.1
    have himg : ∀ q, q ∈ (remove_from_grid s i false).1.images → q ∈ s.images := by
      intro q hq
      by_cases ht : s.threadRunning
      · rw [remove_thread s i false ht] at hq; exact hq
      · rcases hx : dictGet s.images i with _ | iid
        · rw [remove_unoccupied s i false hx] at hq; exact hq
        · rcases hvv : has_valid_pixel (heapGet s.items iid).content with _ | _
          · rw [remove_occupied_invalid s i iid (by simpa using ht) hx hvv] at hq
            exact mem_dictDel hq
          · rw [remove_occupied_valid s i iid (by simpa using ht) hx hvv] at hq
            exact mem_dictDel hq
    intro e he
    have hframe := add_frame s im i hist hv
    rw [hframe.2.2]
    rw [add_core s im i hist hv] at he
    have hcore : ∀ t : AppState, t.images = dictSet (remove_from_grid s i false).1.images i
          (remove_from_grid s i false).1.nextItem →
        e ∈ t.images → e.2 < s.nextItem + 1 := by
      intro t h1 hmem
      rw [h1] at hmem
      rcases e with ⟨j, v⟩
      rcases mem_dictSet hmem with hc | hc
      · injection hc with hc1 hc2
        show v < s.nextItem + 1
        rw [hc2, hnext]
        exact Nat.lt_succ_self _
      · have hlt : v < s.nextItem := hids _ (himg _ hc)
        show v < s.nextItem + 1
        exact Nat.lt_succ_of_lt hlt
    cases hist
    · exact hcore _ rfl he
    · exact hcore _ rfl he

/-! ### Claim C8: add caps the stored cell image to the cell size -/

theorem isOccupied_of_contentAt {s : AppState} {i : Index} {im : Img}
    (h : contentAt s i = some im) : isOccupied s i = true := by
  unfold contentAt at h
  unfold isOccupied
  rcases hg : dictGet s.images i with _ | v
  · rw [hg] at h; cases h
  · rfl

/-- C8: for every source image, `add_to_grid` scales each axis down to
the cell dimension independently — an oversized width becomes exactly
`cellWidth` with the height untouched in that step, and symmetrically for
the height — so the capped image never exceeds the cell size on either
axis, and the cell image actually stored at the index is the cell-sized
canvas carrying it. -/
theorem add_caps_cell_size (s : AppState) (im : Img) (i : Index)
    (hv : has_valid_pixel im = true) :
    (capWidth s.cfg im).width =
        (if s.cfg.cellWidth < im.width then s.cfg.cellWidth else im.width) ∧
    (capWidth s.cfg im).height = im.height ∧
    (capHeight s.cfg (capWidth s.cfg im)).width = (capWidth s.cfg im).width ∧
    (capHeight s.cfg (capWidth s.cfg im)).height =
        (if s.cfg.cellHeight < im.height then s.cfg.cellHeight else im.height) ∧
    (capHeight s.cfg (capWidth s.cfg im)).width ≤ s.cfg.cellWidth ∧
    (capHeight s.cfg (capWidth s.cfg im)).height ≤ s.cfg.cellHeight ∧
    ∃ cIm, contentAt (add_to_grid s im i true) i = some cIm ∧
      cIm.width ≤ s.cfg.cellWidth ∧ cIm.height ≤ s.cfg.cellHeight := by
  have hWw : (capWidth s.cfg im).width =
      (if s.cfg.cellWidth < im.width then s.cfg.cellWidth else im.width) := by
    by_cases hw : s.cfg.cellWidth < im.width <;> simp [capWidth, scaledImg, hw]
  have hWh : (capWidth s.cfg im).height = im.height := by
    by_cases hw : s.cfg.cellWidth < im.width <;> simp [capWidth, scaledImg, hw]
  have hHw : (capHeight s.cfg (capWidth s.cfg im)).width = (capWidth s.cfg im).width := by
    by_cases hh : s.cfg.cellHeight < (capWidth s.cfg im).height <;>
      simp [capHeight, scaledImg, hh]
  have hHh : (capHeight s.cfg (capWidth s.cfg im)).height =
      (if s.cfg.cellHeight < im.height then s.cfg.cellHeight else im.height) := by
    rw [show (if s.cfg.cellHeight < im.height then s.cfg.cellHeight else im.height) =
        (if s.cfg.cellHeight < (capWidth s.cfg im).height then s.cfg.cellHeight
          else (capWidth s.cfg im).height) by rw [hWh]]
    by_cases hh : s.cfg.cellHeight < (capWidth s.cfg im).height <;>
      simp [capHeight, scaledImg, hh]
  refine ⟨hWw, hWh, hHw, hHh, ?_, ?_, ?_⟩
  · rw [hHw, hWw]
    by_cases hw : s.cfg.cellWidth < im.width <;> simp [hw] <;> omega
  · rw [hHh]
    by_cases hh : s.cfg.cellHeight < im.height <;> simp [hh] <;> omega
  · exact ⟨_, add_contentAt_self s im i true hv, le_refl _, le_refl _⟩

/-- Witness for `add_caps_cell_size` at a concrete oversized image. -/
theorem add_caps_cell_size_witness :
    has_valid_pixel (⟨3, 5, fun _ _ => ⟨7, 255⟩⟩ : Img) = true ∧
      ∃ cIm, contentAt
          (add_to_grid ⟨⟨2, 2, 4, 4⟩, [], [], 0, [], [], [], [], 0, false⟩
            ⟨3, 5, fun _ _ => ⟨7, 255⟩⟩ (0, 0) true) (0, 0) = some cIm ∧
        cIm.width ≤ 2 ∧ cIm.height ≤ 2 := by
  have h :=
    add_caps_cell_size ⟨⟨2, 2, 4, 4⟩, [], [], 0, [], [], [], [], 0, false⟩
      ⟨3, 5, fun _ _ => ⟨7, 255⟩⟩ (0, 0) (by decide)
  exact ⟨by decide, h.2.2.2.2.2.2⟩

/-! ### Claim C5: the alpha threshold governing add's no-op behaviour -/

/-- The claim's own predicate, following the spec wording: some pixel has
alpha at least `t`. -/
def hasPixelAlphaAtLeast (im : Img) (t : Nat) : Bool :=
  (List.range im.height).any fun y =>
    (List.range im.width).any fun x => t ≤ (im.px x y).alpha

/-- C5 (amended): `add` leaves the cell store and both history stacks
unchanged if and only if the image has no pixel with alpha strictly
greater than 25 — the code's check is `alpha > 25`, so the claim's
threshold "alpha ≥ 25" is wrong exactly at alpha = 25. -/
theorem add_noop_iff_alpha_threshold (s : AppState) (im : Img) (i : Index)
    (ht : s.threadRunning = false) :
    ((∀ j, contentAt (add_to_grid s im i true) j = contentAt s j) ∧
        (add_to_grid s im i true).undoStack = s.undoStack ∧
        (add_to_grid s im i true).redoStack = s.redoStack) ↔
      (∀ x y, x < im.width → y < im.height → (im.px x y).alpha ≤ 25) := by
  constructor
  · intro h
    by_contra hcon
    push_neg at hcon
    obtain ⟨x, y, hx, hy, hα⟩ := hcon
    have hv : has_valid_pixel im = true :=
      (has_valid_pixel_iff im).mpr ⟨x, y, hx, hy, hα⟩
    have hgrow := (add_stacks s im i hv).1
    rw [h.2.1] at hgrow
    exact absurd (congrArg List.length hgrow) (by simp)
  · intro h
    have hv : has_valid_pixel im = false := by
      by_contra hcon
      rw [Bool.not_eq_false] at hcon
      obtain ⟨x, y, hx, hy, hα⟩ := (has_valid_pixel_iff im).mp hcon
      exact absurd (h x y hx hy) (by omega)
    rw [add_invalid s im i true hv]
    exact ⟨fun _ => rfl, rfl, rfl⟩

/-- Witness for `add_noop_iff_alpha_threshold`: a fully faint image
(alpha 10 everywhere) leaves a concrete session untouched. -/
theorem add_noop_iff_alpha_threshold_witness :
    (∀ j, contentAt
        (add_to_grid ⟨⟨1, 1, 2, 2⟩, [], [], 0, [], [], [], [], 0, false⟩
          ⟨1, 1, fun _ _ => ⟨3, 10⟩⟩ (0, 0) true) j =
      contentAt ⟨⟨1, 1, 2, 2⟩, [], [], 0, [], [], [], [], 0, false⟩ j) ∧
      (add_to_grid ⟨⟨1, 1, 2, 2⟩, [], [], 0, [], [], [], [], 0, false⟩
        ⟨1, 1, fun _ _ => ⟨3, 10⟩⟩ (0, 0) true).undoStack = [] ∧
      (add_to_grid ⟨⟨1, 1, 2, 2⟩, [], [], 0, [], [], [], [], 0, false⟩
        ⟨1, 1, fun _ _ => ⟨3, 10⟩⟩ (0, 0) true).redoStack = [] :=
  (add_noop_iff_alpha_threshold
      ⟨⟨1, 1, 2, 2⟩, [], [], 0, [], [], [], [], 0, false⟩
      ⟨1, 1, fun _ _ => ⟨3, 10⟩⟩ (0, 0) rfl).mpr
    (by
      intro x y hx hy
      have hx1 : x < 1 := hx
      have hy1 : y < 1 := hy
      have hx0 : x = 0 := by omega
      have hy0 : y = 0 := by omega
      subst hx0; subst hy0; decide)

/-- C5 counterexample: a 1×1 image whose single pixel has alpha exactly
25 does have a pixel with alpha ≥ 25, yet `add` is a complete no-op on
it — refuting "any image with at least one pixel of alpha ≥ 25 is
inserted". -/
theorem add_alpha_exactly_25_counterexample :
    hasPixelAlphaAtLeast ⟨1, 1, fun _ _ => ⟨3, 25⟩⟩ 25 = true ∧
      add_to_grid ⟨⟨1, 1, 2, 2⟩, [], [], 0, [], [], [], [], 0, false⟩
        ⟨1, 1, fun _ _ => ⟨3, 25⟩⟩ (0, 0) true =
      ⟨⟨1, 1, 2, 2⟩, [], [], 0, [], [], [], [], 0, false⟩ :=
  ⟨by decide, add_invalid _ _ _ _ (by decide)⟩

/-! ### Claim C3: the worker guard does not protect add/undo/redo -/

/-- C3: the code contradicts its own guard comment.  With
`thread_running` set, `add_to_grid` still inserts the image and records
an ADD action, and `undo` still pops the undo stack and pushes onto the
redo stack (its inner `remove_from_grid` call is the only part that is
blocked).  Evaluated on concrete failing inputs. -/
theorem thread_guard_violation :
    (isOccupied
        (add_to_grid ⟨⟨1, 1, 2, 2⟩, [], [], 0, [], [], [], [], 0, true⟩
          ⟨1, 1, fun _ _ => ⟨7, 255⟩⟩ (0, 0) true) (0, 0) = true ∧
      (add_to_grid ⟨⟨1, 1, 2, 2⟩, [], [], 0, [], [], [], [], 0, true⟩
          ⟨1, 1, fun _ _ => ⟨7, 255⟩⟩ (0, 0) true).undoStack.length = 1) ∧
      (undoStep ⟨⟨1, 1, 2, 2⟩, [((0, 0), 0)],
          [(0, ⟨⟨1, 1, fun _ _ => ⟨7, 255⟩⟩, (0, 0), true⟩)], 1,
          [Action.add (0, 0) none], [], [], [], 0, true⟩).map
        (fun t => (t.undoStack.length, t.redoStack.length)) = .ok (0, 1) := by
  exact ⟨⟨rfl, rfl⟩, rfl⟩

/-! ### Claim C6: bounds handling -/

/-- The drag-target clamp of `mouseMoveEvent` always lands in bounds. -/
theorem clamp_in_bounds (c : Cfg) (hc : CfgOK c) (j : Index) :
    out_of_bounds c (clamp_drag_index c j) = false := by
  obtain ⟨hcw, hch, hcc, hcr⟩ := hc
  unfold out_of_bounds clamp_drag_index cell_origin grid_col grid_row
  simp only [Bool.or_eq_false_iff, decide_eq_false_iff_not, not_lt]
  have hcol0 : (0 : Int) ≤ (c.gridCols : Int) - 1 := by omega
  have hrow0 : (0 : Int) ≤ (c.gridRows : Int) - 1 := by omega
  have hm1 : (0 : Int) ≤ min (max j.1 0) ((c.gridCols : Int) - 1) :=
    le_min (le_max_right _ _) hcol0
  have hm2 : min (max j.1 0) ((c.gridCols : Int) - 1) ≤ (c.gridCols : Int) - 1 :=
    min_le_right _ _
  have hn1 : (0 : Int) ≤ min (max j.2 0) ((c.gridRows : Int) - 1) :=
    le_min (le_max_right _ _) hrow0
  have hn2 : min (max j.2 0) ((c.gridRows : Int) - 1) ≤ (c.gridRows : Int) - 1 :=
    min_le_right _ _
  refine ⟨⟨⟨?_, ?_⟩, ?_⟩, ?_⟩
  · exact mul_nonneg hm1 (Int.natCast_nonneg _)
  · exact mul_le_mul_of_nonneg_right hm2 (Int.natCast_nonneg _)
  · exact mul_nonneg hn1 (Int.natCast_nonneg _)
  · exact mul_le_mul_of_nonneg_right hn2 (Int.natCast_nonneg _)

/-- C6 (amended): an out-of-bounds index is rejected by the UI entry
points — the drag clamp keeps move targets in bounds, and removal at an
out-of-bounds index of a store holding only in-bounds cells is a silent
no-op — but `add_to_grid` itself performs no bounds check: called with an
out-of-bounds index and a valid image it inserts the cell and records an
ADD action. -/
theorem bounds_handling (s : AppState) (i : Index) (im : Img) (hist : Bool)
    (hc : CfgOK s.cfg)
    (hstore : ∀ e ∈ s.images, out_of_bounds s.cfg e.1 = false)
    (hoob : out_of_bounds s.cfg i = true)
    (hv : has_valid_pixel im = true) :
    remove_from_grid s i hist = (s, none) ∧
      (∀ j : Index, out_of_bounds s.cfg (clamp_drag_index s.cfg j) = false) ∧
      isOccupied (add_to_grid s im i true) i = true ∧
      (add_to_grid s im i true).undoStack = Action.add i none :: s.undoStack := by
  have hempty : dictGet s.images i = none := by
    rcases hg : dictGet s.images i with _ | v
    · rfl
    · have hmem := dictGet_mem hg
      have := hstore _ hmem
      rw [this] at hoob
      cases hoob
  refine ⟨remove_unoccupied s i hist hempty, fun j => clamp_in_bounds s.cfg hc j, ?_, ?_⟩
  · exact isOccupied_of_contentAt (add_contentAt_self s im i true hv)
  · have h := (add_stacks s im i hv).1
    rw [remove_unoccupied s i false hempty] at h
    exact h

/-- Witness for `bounds_handling` on a concrete empty session and the
out-of-bounds index (2, 0) of a 2×2 grid. -/
theorem bounds_handling_witness :
    remove_from_grid ⟨⟨1, 1, 2, 2⟩, [], [], 0, [], [], [], [], 0, false⟩
        (2, 0) false =
      (⟨⟨1, 1, 2, 2⟩, [], [], 0, [], [], [], [], 0, false⟩, none) ∧
      isOccupied (add_to_grid ⟨⟨1, 1, 2, 2⟩, [], [], 0, [], [], [], [], 0, false⟩
        ⟨1, 1, fun _ _ => ⟨7, 255⟩⟩ (2, 0) true) (2, 0) = true := by
  have h := bounds_handling ⟨⟨1, 1, 2, 2⟩, [], [], 0, [], [], [], [], 0, false⟩
    (2, 0) ⟨1, 1, fun _ _ => ⟨7, 255⟩⟩ false
    ⟨by decide, by decide, by decide, by decide⟩
    (by intro e he; cases he) (by decide) (by decide)
  exact ⟨h.1, h.2.2.1⟩

/-- C6 counterexample: at the out-of-bounds index (2, 0) of a 2×2 grid,
`add_to_grid` inserts the image and records an action instead of being a
silent no-op. -/
theorem add_out_of_bounds_counterexample :
    out_of_bounds ⟨1, 1, 2, 2⟩ (2, 0) = true ∧
      isOccupied (add_to_grid ⟨⟨1, 1, 2, 2⟩, [], [], 0, [], [], [], [], 0, false⟩
        ⟨1, 1, fun _ _ => ⟨7, 255⟩⟩ (2, 0) true) (2, 0) = true ∧
      (add_to_grid ⟨⟨1, 1, 2, 2⟩, [], [], 0, [], [], [], [], 0, false⟩
        ⟨1, 1, fun _ _ => ⟨7, 255⟩⟩ (2, 0) true).undoStack.length = 1 := by
  exact ⟨by decide, rfl, rfl⟩

/-! ### Claim C9: dimensions of the full-grid snapshot -/

theorem paint_fold_dims (L : List Item) (cv : Img) :
    ((L.foldl (fun c it => if it.inScene then paintItem c it else c) cv)).width
        = cv.width ∧
      ((L.foldl (fun c it => if it.inScene then paintItem c it else c) cv)).height
        = cv.height := by
  induction L generalizing cv with
  | nil => exact ⟨rfl, rfl⟩
  | cons a as ih =>
    simp only [List.foldl_cons]
    rcases ih (if a.inScene then paintItem cv a else cv) with ⟨h1, h2⟩
    rw [h1, h2]
    by_cases ha : a.inScene
    · rw [if_pos ha]; exact ⟨rfl, rfl⟩
    · rw [if_neg ha]; exact ⟨rfl, rfl⟩

theorem renderAll_dims (s : AppState) :
    (renderAll s).width = grid_col s.cfg * s.cfg.cellWidth ∧
      (renderAll s).height = ((max_row s + 1) * (s.cfg.cellHeight : Int)).toNat := by
  unfold renderAll
  exact paint_fold_dims _ _

/-- C9: the full-grid snapshot composited by `create_temp_all` before a
whole-grid replacement (the OVERHAUL record of `load`) measures exactly
`grid_col × cellWidth` pixels wide and `(maxOccupiedRow + 1) × cellHeight`
pixels high, where `maxOccupiedRow` is the maximum row index among the
occupied cells; the persisted artifact holds exactly that bitmap. -/
theorem create_temp_all_dimensions (s : AppState) (h : s.images ≠ [])
    (hrows : ∀ e ∈ s.images, 0 ≤ e.1.2) :
    ∃ r : Int, 0 ≤ r ∧ (∃ e ∈ s.images, e.1.2 = r) ∧
      (∀ e ∈ s.images, e.1.2 ≤ r) ∧
      (renderAll s).width = grid_col s.cfg * s.cfg.cellWidth ∧
      (renderAll s).height = (r.toNat + 1) * s.cfg.cellHeight ∧
      fsGet (create_temp_all s).1.tempFiles (create_temp_all s).2 = renderAll s ∧
      (create_temp_all s).2 ∈ (create_temp_all s).1.temp := by
  obtain ⟨e0, he0, hre⟩ := max_row_mem s h
  refine ⟨max_row s, hre ▸ hrows e0 he0, ⟨e0, he0, hre⟩,
    fun e he => max_row_ge s e he, (renderAll_dims s).1, ?_, ?_, ?_⟩
  · rw [(renderAll_dims s).2]
    have hge : 0 ≤ max_row s := hre ▸ hrows e0 he0
    have hcast : max_row s = ((max_row s).toNat : Int) :=
      (Int.toNat_of_nonneg hge).symm
    rw [hcast]
    norm_cast
  · unfold create_temp_all saveTemp
    simp [fsGet]
  · unfold create_temp_all saveTemp
    simp

/-- Witness for `create_temp_all_dimensions` on a one-cell 2×2 session. -/
theorem create_temp_all_dimensions_witness :
    ∃ r : Int, 0 ≤ r ∧
      (∃ e ∈ ([(((0 : Int), (1 : Int)), 0)] : List (Index × ItemId)), e.1.2 = r) ∧
      (∀ e ∈ ([(((0 : Int), (1 : Int)), 0)] : List (Index × ItemId)), e.1.2 ≤ r) ∧
      (renderAll ⟨⟨1, 1, 2, 2⟩, [((0, 1), 0)],
          [(0, ⟨⟨1, 1, fun _ _ => ⟨7, 255⟩⟩, (0, 1), true⟩)], 1,
          [], [], [], [], 0, false⟩).width = 2 * 1 ∧
      (renderAll ⟨⟨1, 1, 2, 2⟩, [((0, 1), 0)],
          [(0, ⟨⟨1, 1, fun _ _ => ⟨7, 255⟩⟩, (0, 1), true⟩)], 1,
          [], [], [], [], 0, false⟩).height = (r.toNat + 1) * 1 := by
  have h := create_temp_all_dimensions
    ⟨⟨1, 1, 2, 2⟩, [((0, 1), 0)],
      [(0, ⟨⟨1, 1, fun _ _ => ⟨7, 255⟩⟩, (0, 1), true⟩)], 1,
      [], [], [], [], 0, false⟩
    (by simp) (by intro e he; simp at he; rw [he]; decide)
  obtain ⟨r, h0, h1, h2, h3, h4, _⟩ := h
  exact ⟨r, h0, h1, h2, h3, h4⟩

/-! ### Claim C10: artifact bookkeeping and teardown cleanup -/

/-- C10: every snapshot path handed out by single-cell staging
(`create_temp`) or full-grid staging (`create_temp_all`) is already on
the session artifact list `app.temp` when returned; teardown
(`delete_temp_files`) removes every listed file from disk while leaving
unlisted files alone (missing listed files are skipped by construction),
so no snapshot artifact survives the session. -/
theorem artifact_lifetime (s : AppState) (iid : ItemId) (p : Path)
    (h1 : (create_temp s iid).2 = some p) :
    p ∈ (create_temp s iid).1.temp ∧
      (create_temp_all s).2 ∈ (create_temp_all s).1.temp ∧
      (∀ e ∈ (delete_temp_files s).tempFiles, e.1 ∉ s.temp) ∧
      (∀ e ∈ s.tempFiles, e.1 ∉ s.temp → e ∈ (delete_temp_files s).tempFiles) := by
  refine ⟨?_, ?_, ?_, ?_⟩
  · revert h1
    unfold create_temp saveTemp
    rcases hv : has_valid_pixel (heapGet s.items iid).content with _ | _
    · simp [hv]
    · simp only [hv, Bool.true_eq_false, if_false]
      intro h2
      injection h2 with h3
      subst h3
      simp
  · unfold create_temp_all saveTemp
    simp
  · intro e he
    unfold delete_temp_files at he
    have := List.of_mem_filter he
    simpa using this
  · intro e he hnot
    unfold delete_temp_files
    exact List.mem_filter.mpr ⟨he, by simpa using hnot⟩

/-! ### Step lemmas for MOVE/SWITCH and MOVE/OVERWRITE -/

theorem switch_core_both (s : AppState) (a b : Index) (ia ib : ItemId)
    (ht : s.threadRunning = false) (hab : a ≠ b)
    (ha : dictGet s.images a = some ia) (hb : dictGet s.images b = some ib) :
    move_switch s a b =
      pushHistory
        { s with
          items := heapSet
            (heapSet s.items ia fun it => { it with pos := cell_origin s.cfg b })
            ib fun it => { it with pos := cell_origin s.cfg a },
          images := dictSet (dictSet s.images b ia) a ib }
        (.move a b none .SWITCH) := by
  unfold move_switch setPos
  rw [if_neg (by simp [ht]), if_neg hab, ha, hb]

theorem switch_core_left (s : AppState) (a b : Index) (ia : ItemId)
    (ht : s.threadRunning = false) (hab : a ≠ b)
    (ha : dictGet s.images a = some ia) (hb : dictGet s.images b = none) :
    move_switch s a b =
      pushHistory
        { s with
          items := heapSet s.items ia fun it => { it with pos := cell_origin s.cfg b },
          images := dictSet s.images b ia }
        (.move a b none .SWITCH) := by
  unfold move_switch setPos
  rw [if_neg (by simp [ht]), if_neg hab, ha, hb]

theorem switch_core_none (s : AppState) (a b : Index)
    (ht : s.threadRunning = false) (hab : a ≠ b)
    (ha : dictGet s.images a = none) (hb : dictGet s.images b = none) :
    move_switch s a b = pushHistory s (.move a b none .SWITCH) := by
  unfold move_switch setPos
  rw [if_neg (by simp [ht]), if_neg hab, ha, hb]

theorem undo_switch_both (s : AppState) (rest : List Action) (a b : Index)
    (t : Option Path) (ia ib : ItemId)
    (hstack : s.undoStack = Action.move a b t MoveKind.SWITCH :: rest)
    (ha : dictGet s.images a = some ia) (hb : dictGet s.images b = some ib) :
    undoStep s = .ok
      { s with
        undoStack := rest,
        items := heapSet
          (heapSet s.items ia fun it => { it with pos := cell_origin s.cfg b })
          ib fun it => { it with pos := cell_origin s.cfg a },
        images := dictSet (dictSet s.images b ia) a ib,
        redoStack := Action.move a b none MoveKind.SWITCH :: s.redoStack } := by
  unfold undoStep setPos
  rw [hstack]
  dsimp only
  rw [ha, hb]

theorem undo_switch_none (s : AppState) (rest : List Action) (a b : Index)
    (t : Option Path)
    (hstack : s.undoStack = Action.move a b t MoveKind.SWITCH :: rest)
    (ha : dictGet s.images a = none) (hb : dictGet s.images b = none) :
    undoStep s = .ok
      { s with
        undoStack := rest,
        redoStack := Action.move a b none MoveKind.SWITCH :: s.redoStack } := by
  unfold undoStep setPos
  rw [hstack]
  dsimp only
  rw [ha, hb]

theorem overwrite_core (s : AppState) (a b : Index) (ia ib : ItemId)
    (ht : s.threadRunning = false) (hab : a ≠ b)
    (ha : dictGet s.images a = some ia) (hb : dictGet s.images b = some ib)
    (hv : has_valid_pixel (heapGet s.items ib).content = true) :
    move_overwrite s a b =
      pushHistory
        { s with
          temp := s.temp ++ [s.nextPath],
          tempFiles := (s.nextPath, (heapGet s.items ib).content) :: s.tempFiles,
          nextPath := s.nextPath + 1,
          items := heapSet
            (heapSet s.items ib fun it => { it with inScene := false })
            ia fun it => { it with pos := cell_origin s.cfg b },
          images := dictDel (dictSet (dictDel s.images b) b ia) a }
        (.move a b (some s.nextPath) .OVERWRITE) := by
  unfold move_overwrite setPos
  rw [if_neg (by simp [ht]), if_neg hab]
  have hocc : isOccupied s b = true := by rw [isOccupied, hb]; rfl
  rw [hocc]
  dsimp only
  rw [remove_occupied_valid s b ib ht hb hv, if_pos rfl]
  dsimp only
  rw [dictGet_del_ne s.images b a hab, ha]

theorem undo_overwrite_step (s : AppState) (rest : List Action) (a b : Index)
    (p : Path) (ib2 : ItemId)
    (hstack : s.undoStack = Action.move a b (some p) MoveKind.OVERWRITE :: rest)
    (hb : dictGet s.images b = some ib2) :
    undoStep s = .ok
      (let t4 := add_to_grid
        { s with
          undoStack := rest,
          images := dictDel (dictSet s.images a ib2) b,
          items := heapSet s.items ib2
            fun it => { it with pos := cell_origin s.cfg a } }
        (fileLoad { s with
          undoStack := rest,
          images := dictDel (dictSet s.images a ib2) b,
          items := heapSet s.items ib2
            fun it => { it with pos := cell_origin s.cfg a } } p) b false
       { t4 with redoStack := Action.move a b none MoveKind.OVERWRITE :: t4.redoStack }) := by
  unfold undoStep setPos
  rw [hstack]
  dsimp only
  rw [hb]

/-! ### Claim C7: MOVE/SWITCH self-inversion -/

theorem OptImgEquiv_refl (o : Option Img) : OptImgEquiv o o := by
  cases o with
  | none => trivial
  | some a => exact Img.Equiv.refl a

theorem contentAt_eq_some {s : AppState} {j : Index} {w : ItemId}
    (h : dictGet s.images j = some w) :
    contentAt s j = some ((heapGet s.items w).content) := by
  unfold contentAt
  rw [h]
  rfl

theorem contentAt_eq_none {s : AppState} {j : Index}
    (h : dictGet s.images j = none) : contentAt s j = none := by
  unfold contentAt
  rw [h]
  rfl

/-- Two states agree as stores when both hold the given values at `a` and
`b`, agree on the dictionary elsewhere, and carry the same item
contents. -/
theorem storeEq_via (s t : AppState) (a b : Index) (ia ib : ItemId)
    (ha : dictGet s.images a = some ia) (hb : dictGet s.images b = some ib)
    (hta : dictGet t.images a = some ia) (htb : dictGet t.images b = some ib)
    (htj : ∀ j, j ≠ a → j ≠ b → dictGet t.images j = dictGet s.images j)
    (hitf : ∀ q, (heapGet t.items q).content = (heapGet s.items q).content) :
    StoreEq s t := by
  intro j
  by_cases hja : j = a
  · subst hja
    rw [contentAt_eq_some ha, contentAt_eq_some hta, hitf ia]
    exact Img.Equiv.refl _
  · by_cases hjb : j = b
    · subst hjb
      rw [contentAt_eq_some hb, contentAt_eq_some htb, hitf ib]
      exact Img.Equiv.refl _
    · rcases hg : dictGet s.images j with _ | w
      · rw [contentAt_eq_none hg, contentAt_eq_none ((htj j hja hjb).trans hg)]
        trivial
      · rw [contentAt_eq_some hg,
          contentAt_eq_some ((htj j hja hjb).trans hg), hitf w]
        exact Img.Equiv.refl _

theorem heap_double_set_content (hp : List (ItemId × Item)) (i1 i2 q : ItemId)
    (f g : Item → Item) (hf : ∀ it, (f it).content = it.content)
    (hg : ∀ it, (g it).content = it.content) :
    (heapGet (heapSet (heapSet hp i1 f) i2 g) q).content = (heapGet hp q).content := by
  rw [heapGet_set_content _ _ _ _ hg, heapGet_set_content _ _ _ _ hf]

/-- C7 (amended): `move(A, B, SWITCH)` is self-inverse (double
application, and move-then-undo, restore the store content) exactly when
the two cells are both occupied or both empty.  When exactly one side is
occupied, the move copies the single occupant's binding to the other
index: the one image ends up registered under both indices, and a second
application (or an undo) leaves both indices occupied, so the original
one-cell arrangement is not restored. -/
theorem move_switch_inverse_cases (s : AppState) (a b : Index)
    (ht : s.threadRunning = false) (hab : a ≠ b) :
    (∀ ia ib, dictGet s.images a = some ia → dictGet s.images b = some ib →
      StoreEq s (move_switch (move_switch s a b) a b) ∧
      ∃ u, undoStep (move_switch s a b) = .ok u ∧ StoreEq s u) ∧
    (dictGet s.images a = none → dictGet s.images b = none →
      StoreEq s (move_switch (move_switch s a b) a b) ∧
      ∃ u, undoStep (move_switch s a b) = .ok u ∧ StoreEq s u) ∧
    (∀ ia, dictGet s.images a = some ia → dictGet s.images b = none →
      contentAt (move_switch s a b) b = contentAt s a ∧
      contentAt (move_switch s a b) a = contentAt s a ∧
      isOccupied (move_switch (move_switch s a b) a b) a = true ∧
      isOccupied (move_switch (move_switch s a b) a b) b = true) := by
  have hba : b ≠ a := fun h => hab h.symm
  refine ⟨?_, ?_, ?_⟩
  · intro ia ib ha hb
    rw [switch_core_both s a b ia ib ht hab ha hb]
    set T : AppState := pushHistory
      { s with
        items := heapSet
          (heapSet s.items ia fun it => { it with pos := cell_origin s.cfg b })
          ib fun it => { it with pos := cell_origin s.cfg a },
        images := dictSet (dictSet s.images b ia) a ib }
      (.move a b none .SWITCH) with hT
    have hTt : T.threadRunning = false := ht
    have hTim : T.images = dictSet (dictSet s.images b ia) a ib := rfl
    have hTstack : T.undoStack = Action.move a b none MoveKind.SWITCH :: s.undoStack := rfl
    have hTit : ∀ q, (heapGet T.items q).content = (heapGet s.items q).content :=
      fun q => heap_double_set_content s.items ia ib q
        (fun it => { it with pos := cell_origin s.cfg b })
        (fun it => { it with pos := cell_origin s.cfg a })
        (fun _ => rfl) (fun _ => rfl)
    have hTa2 : dictGet T.images a = some ib := by
      rw [hTim, dictGet_set_self]
    have hTb2 : dictGet T.images b = some ia := by
      rw [hTim, dictGet_set_ne _ _ _ _ hba, dictGet_set_self]
    constructor
    · rw [switch_core_both T a b ib ia hTt hab hTa2 hTb2]
      refine storeEq_via s _ a b ia ib ha hb ?_ ?_ ?_ ?_
      · show dictGet (dictSet (dictSet T.images b ib) a ia) a = some ia
        rw [dictGet_set_self]
      · show dictGet (dictSet (dictSet T.images b ib) a ia) b = some ib
        rw [dictGet_set_ne _ _ _ _ hba, dictGet_set_self]
      · intro j hja hjb
        show dictGet (dictSet (dictSet T.images b ib) a ia) j = dictGet s.images j
        rw [dictGet_set_ne _ _ _ _ hja, dictGet_set_ne _ _ _ _ hjb, hTim,
          dictGet_set_ne _ _ _ _ hja, dictGet_set_ne _ _ _ _ hjb]
      · intro q
        exact (heap_double_set_content T.items ib ia q
          (fun it => { it with pos := cell_origin T.cfg b })
          (fun it => { it with pos := cell_origin T.cfg a })
          (fun _ => rfl) (fun _ => rfl)).trans (hTit q)
    · refine ⟨_, undo_switch_both T s.undoStack a b none ib ia hTstack hTa2 hTb2, ?_⟩
      refine storeEq_via s _ a b ia ib ha hb ?_ ?_ ?_ ?_
      · show dictGet (dictSet (dictSet T.images b ib) a ia) a = some ia
        rw [dictGet_set_self]
      · show dictGet (dictSet (dictSet T.images b ib) a ia) b = some ib
        rw [dictGet_set_ne _ _ _ _ hba, dictGet_set_self]
      · intro j hja hjb
        show dictGet (dictSet (dictSet T.images b ib) a ia) j = dictGet s.images j
        rw [dictGet_set_ne _ _ _ _ hja, dictGet_set_ne _ _ _ _ hjb, hTim,
          dictGet_set_ne _ _ _ _ hja, dictGet_set_ne _ _ _ _ hjb]
      · intro q
        exact (heap_double_set_content T.items ib ia q
          (fun it => { it with pos := cell_origin T.cfg b })
          (fun it => { it with pos := cell_origin T.cfg a })
          (fun _ => rfl) (fun _ => rfl)).trans (hTit q)
  · intro ha hb
    rw [switch_core_none s a b ht hab ha hb]
    constructor
    · rw [switch_core_none (pushHistory s (.move a b none .SWITCH)) a b ht hab ha hb]
      intro j
      exact OptImgEquiv_refl _
    · exact ⟨_, undo_switch_none (pushHistory s (.move a b none .SWITCH))
        s.undoStack a b none rfl ha hb,
        fun j => OptImgEquiv_refl _⟩
  · intro ia ha hb
    rw [switch_core_left s a b ia ht hab ha hb]
    set T : AppState := pushHistory
      { s with
        items := heapSet s.items ia fun it => { it with pos := cell_origin s.cfg b },
        images := dictSet s.images b ia }
      (.move a b none .SWITCH) with hT
    have hTt : T.threadRunning = false := ht
    have hTim : T.images = dictSet s.images b ia := rfl
    have hTa : dictGet T.images a = some ia := by
      rw [hTim, dictGet_set_ne _ _ _ _ hab]
      exact ha
    have hTb : dictGet T.images b = some ia := by
      rw [hTim, dictGet_set_self]
    have hTit : ∀ q, (heapGet T.items q).content = (heapGet s.items q).content :=
      fun q => heapGet_set_content s.items ia q
        (fun it => { it with pos := cell_origin s.cfg b }) (fun _ => rfl)
    refine ⟨?_, ?_, ?_, ?_⟩
    · rw [contentAt_eq_some hTb, contentAt_eq_some ha, hTit ia]
    · rw [contentAt_eq_some hTa, contentAt_eq_some ha, hTit ia]
    · rw [switch_core_both T a b ia ia hTt hab hTa hTb]
      unfold isOccupied
      rw [show dictGet (pushHistory
          { T with
            items := heapSet
              (heapSet T.items ia fun it => { it with pos := cell_origin T.cfg b })
              ia fun it => { it with pos := cell_origin T.cfg a },
            images := dictSet (dictSet T.images b ia) a ia }
          (Action.move a b none MoveKind.SWITCH)).images a =
        dictGet (dictSet (dictSet T.images b ia) a ia) a from rfl]
      rw [dictGet_set_self]
      rfl
    · rw [switch_core_both T a b ia ia hTt hab hTa hTb]
      unfold isOccupied
      rw [show dictGet (pushHistory
          { T with
            items := heapSet
              (heapSet T.items ia fun it => { it with pos := cell_origin T.cfg b })
              ia fun it => { it with pos := cell_origin T.cfg a },
            images := dictSet (dictSet T.images b ia) a ia }
          (Action.move a b none MoveKind.SWITCH)).images b =
        dictGet (dictSet (dictSet T.images b ia) a ia) b from rfl]
      rw [dictGet_set_ne _ _ _ _ hba, dictGet_set_self]
      rfl

/-- Witness for `move_switch_inverse_cases`: a concrete two-cell session
with both cells occupied round-trips under a double switch. -/
theorem move_switch_inverse_cases_witness :
    StoreEq
      ⟨⟨1, 1, 2, 2⟩, [((0, 0), 0), ((0, 1), 1)],
        [(0, ⟨⟨1, 1, fun _ _ => ⟨7, 255⟩⟩, (0, 0), true⟩),
         (1, ⟨⟨1, 1, fun _ _ => ⟨9, 255⟩⟩, (0, 1), true⟩)], 2,
        [], [], [], [], 0, false⟩
      (move_switch (move_switch
        ⟨⟨1, 1, 2, 2⟩, [((0, 0), 0), ((0, 1), 1)],
          [(0, ⟨⟨1, 1, fun _ _ => ⟨7, 255⟩⟩, (0, 0), true⟩),
           (1, ⟨⟨1, 1, fun _ _ => ⟨9, 255⟩⟩, (0, 1), true⟩)], 2,
          [], [], [], [], 0, false⟩ (0, 0) (0, 1)) (0, 0) (0, 1)) :=
  ((move_switch_inverse_cases
      ⟨⟨1, 1, 2, 2⟩, [((0, 0), 0), ((0, 1), 1)],
        [(0, ⟨⟨1, 1, fun _ _ => ⟨7, 255⟩⟩, (0, 0), true⟩),
         (1, ⟨⟨1, 1, fun _ _ => ⟨9, 255⟩⟩, (0, 1), true⟩)], 2,
        [], [], [], [], 0, false⟩ (0, 0) (0, 1) rfl (by decide)).1
    0 1 rfl rfl).1

/-- C7 counterexample: with (0,0) occupied and (0,1) empty, applying
`move((0,0),(0,1),SWITCH)` twice leaves (0,1) occupied, and so does one
application followed by `undo()` — the original arrangement (with (0,1)
empty) is not restored. -/
theorem move_switch_one_sided_counterexample :
    isOccupied (add_to_grid ⟨⟨1, 1, 2, 2⟩, [], [], 0, [], [], [], [], 0, false⟩
        ⟨1, 1, fun _ _ => ⟨7, 255⟩⟩ (0, 0) true) (0, 1) = false ∧
      isOccupied (move_switch (move_switch
        (add_to_grid ⟨⟨1, 1, 2, 2⟩, [], [], 0, [], [], [], [], 0, false⟩
          ⟨1, 1, fun _ _ => ⟨7, 255⟩⟩ (0, 0) true) (0, 0) (0, 1)) (0, 0) (0, 1))
        (0, 1) = true ∧
      (undoStep (move_switch
        (add_to_grid ⟨⟨1, 1, 2, 2⟩, [], [], 0, [], [], [], [], 0, false⟩
          ⟨1, 1, fun _ _ => ⟨7, 255⟩⟩ (0, 0) true) (0, 0) (0, 1))).map
        (fun u => isOccupied u (0, 1)) = .ok true := by
  exact ⟨rfl, rfl, rfl⟩

/-! ### Claim C2: MOVE/OVERWRITE and its undo -/

/-- C2: in a session where cell `a` holds image `imX` and cell `b` holds
the valid, cell-sized image `imY`, `move(a, b, OVERWRITE)` leaves `a`
empty and `b` holding `imX`, records exactly one MOVE/OVERWRITE action
whose snapshot artifact captures `imY`, and clears the redo list; a
subsequent `undo()` succeeds and restores `a` holding `imX` and `b`
holding `imY` (the reloaded snapshot, up to pixel equivalence), popping
the recorded action. -/
theorem move_overwrite_scenario (s : AppState) (a b : Index) (ia ib : ItemId)
    (imX imY : Img)
    (ht : s.threadRunning = false) (hab : a ≠ b) (hids : IdsOK s)
    (hina : out_of_bounds s.cfg a = false) (hinb : out_of_bounds s.cfg b = false)
    (ha : dictGet s.images a = some ia) (hb : dictGet s.images b = some ib)
    (hXa : (heapGet s.items ia).content = imX)
    (hYb : (heapGet s.items ib).content = imY)
    (hvY : has_valid_pixel imY = true)
    (hYw : imY.width = s.cfg.cellWidth) (hYh : imY.height = s.cfg.cellHeight)
    (hYn : Img.Norm imY) :
    contentAt (move_overwrite s a b) a = none ∧
    contentAt (move_overwrite s a b) b = some imX ∧
    (move_overwrite s a b).undoStack =
      Action.move a b (some s.nextPath) MoveKind.OVERWRITE :: s.undoStack ∧
    (move_overwrite s a b).redoStack = [] ∧
    fileLoad (move_overwrite s a b) s.nextPath = imY ∧
    ∃ u, undoStep (move_overwrite s a b) = .ok u ∧
      contentAt u a = some imX ∧
      OptImgEquiv (contentAt u b) (some imY) ∧
      u.undoStack = s.undoStack := by
  have hba : b ≠ a := fun h => hab h.symm
  have hvb : has_valid_pixel (heapGet s.items ib).content = true := by
    rw [hYb]; exact hvY
  rw [overwrite_core s a b ia ib ht hab ha hb hvb]
  set T : AppState := pushHistory
    { s with
      temp := s.temp ++ [s.nextPath],
      tempFiles := (s.nextPath, (heapGet s.items ib).content) :: s.tempFiles,
      nextPath := s.nextPath + 1,
      items := heapSet
        (heapSet s.items ib fun it => { it with inScene := false })
        ia fun it => { it with pos := cell_origin s.cfg b },
      images := dictDel (dictSet (dictDel s.images b) b ia) a }
    (.move a b (some s.nextPath) .OVERWRITE) with hT
  have hTim : T.images = dictDel (dictSet (dictDel s.images b) b ia) a := rfl
  have hTit : ∀ q, (heapGet T.items q).content = (heapGet s.items q).content :=
    fun q => heap_double_set_content s.items ib ia q
      (fun it => { it with inScene := false })
      (fun it => { it with pos := cell_origin s.cfg b })
      (fun _ => rfl) (fun _ => rfl)
  have hTa : dictGet T.images a = none := by
    rw [hTim]; exact dictGet_del_self _ _
  have hTb : dictGet T.images b = some ia := by
    rw [hTim, dictGet_del_ne _ a b hba, dictGet_set_self]
  have hTfs : fileLoad T s.nextPath = imY := by
    show fsGet ((s.nextPath, (heapGet s.items ib).content) :: s.tempFiles)
      s.nextPath = imY
    simp [fsGet, hYb]
  set U : AppState :=
    { T with
      undoStack := s.undoStack,
      images := dictDel (dictSet T.images a ia) b,
      items := heapSet T.items ia
        fun it => { it with pos := cell_origin T.cfg a } } with hU
  have hUt : U.threadRunning = false := ht
  have hUcfg : U.cfg = s.cfg := rfl
  have hUa : dictGet U.images a = some ia := by
    show dictGet (dictDel (dictSet T.images a ia) b) a = some ia
    rw [dictGet_del_ne _ b a hab, dictGet_set_self]
  have hUit : ∀ q, (heapGet U.items q).content = (heapGet s.items q).content :=
    fun q => (heapGet_set_content T.items ia q
      (fun it => { it with pos := cell_origin T.cfg a })
      (fun _ => rfl)).trans (hTit q)
  have hUfs : fileLoad U s.nextPath = imY := hTfs
  have hvU : has_valid_pixel (fileLoad U s.nextPath) = true := by
    rw [hUfs]; exact hvY
  have hUids : IdsOK U := by
    intro e he
    have he1 : e ∈ dictDel (dictSet T.images a ia) b := he
    show e.2 < s.nextItem
    rcases e with ⟨j, w⟩
    rcases mem_dictSet (mem_dictDel he1) with h1 | h1
    · cases h1
      exact hids (a, ia) (dictGet_mem ha)
    · rw [hTim] at h1
      rcases mem_dictSet (mem_dictDel h1) with h2 | h2
      · cases h2
        exact hids (a, ia) (dictGet_mem ha)
      · exact hids (j, w) (mem_dictDel h2)
  have hstack : T.undoStack =
      Action.move a b (some s.nextPath) MoveKind.OVERWRITE :: s.undoStack := rfl
  have hu := undo_overwrite_step T s.undoStack a b s.nextPath ia hstack hTb
  have hfa : contentAt (add_to_grid U (fileLoad U s.nextPath) b false) a =
      some imX := by
    rw [add_contentAt_ne U (fileLoad U s.nextPath) b a false hvU hUt hUids hab,
      contentAt_eq_some hUa, hUit ia, hXa]
  have hfb : OptImgEquiv
      (contentAt (add_to_grid U (fileLoad U s.nextPath) b false) b)
      (some imY) := by
    rw [add_contentAt_self U (fileLoad U s.nextPath) b false hvU, hUfs, hUcfg]
    have hcw : capWidth s.cfg imY = imY := by
      unfold capWidth
      rw [if_neg (by omega)]
    have hch : capHeight s.cfg imY = imY := by
      unfold capHeight
      rw [if_neg (by omega)]
    rw [hcw, hch]
    exact drawOnCanvas_equiv s.cfg imY hYw hYh hYn
  have hfu : (add_to_grid U (fileLoad U s.nextPath) b false).undoStack =
      s.undoStack :=
    (add_stacks U (fileLoad U s.nextPath) b hvU).2.2.1
  exact ⟨contentAt_eq_none hTa,
    by rw [contentAt_eq_some hTb, hTit ia, hXa],
    rfl, rfl, hTfs, _, hu, hfa, hfb, hfu⟩

/-- Witness for `move_overwrite_scenario`: a concrete 2x2 one-pixel-cell
session with (0,0) and (0,1) occupied. -/
theorem move_overwrite_scenario_witness :
    contentAt (move_overwrite
      ⟨⟨1, 1, 2, 2⟩, [((0, 0), 0), ((0, 1), 1)],
        [(0, ⟨⟨1, 1, fun _ _ => ⟨7, 255⟩⟩, (0, 0), true⟩),
         (1, ⟨⟨1, 1, fun _ _ => ⟨9, 255⟩⟩, (0, 1), true⟩)], 2,
        [], [], [], [], 0, false⟩ (0, 0) (0, 1)) (0, 0) = none ∧
    contentAt (move_overwrite
      ⟨⟨1, 1, 2, 2⟩, [((0, 0), 0), ((0, 1), 1)],
        [(0, ⟨⟨1, 1, fun _ _ => ⟨7, 255⟩⟩, (0, 0), true⟩),
         (1, ⟨⟨1, 1, fun _ _ => ⟨9, 255⟩⟩, (0, 1), true⟩)], 2,
        [], [], [], [], 0, false⟩ (0, 0) (0, 1)) (0, 1) =
      some ⟨1, 1, fun _ _ => ⟨7, 255⟩⟩ ∧
    (move_overwrite
      ⟨⟨1, 1, 2, 2⟩, [((0, 0), 0), ((0, 1), 1)],
        [(0, ⟨⟨1, 1, fun _ _ => ⟨7, 255⟩⟩, (0, 0), true⟩),
         (1, ⟨⟨1, 1, fun _ _ => ⟨9, 255⟩⟩, (0, 1), true⟩)], 2,
        [], [], [], [], 0, false⟩ (0, 0) (0, 1)).undoStack =
      Action.move (0, 0) (0, 1) (some 0) MoveKind.OVERWRITE :: [] ∧
    (move_overwrite
      ⟨⟨1, 1, 2, 2⟩, [((0, 0), 0), ((0, 1), 1)],
        [(0, ⟨⟨1, 1, fun _ _ => ⟨7, 255⟩⟩, (0, 0), true⟩),
         (1, ⟨⟨1, 1, fun _ _ => ⟨9, 255⟩⟩, (0, 1), true⟩)], 2,
        [], [], [], [], 0, false⟩ (0, 0) (0, 1)).redoStack = [] ∧
    fileLoad (move_overwrite
      ⟨⟨1, 1, 2, 2⟩, [((0, 0), 0), ((0, 1), 1)],
        [(0, ⟨⟨1, 1, fun _ _ => ⟨7, 255⟩⟩, (0, 0), true⟩),
         (1, ⟨⟨1, 1, fun _ _ => ⟨9, 255⟩⟩, (0, 1), true⟩)], 2,
        [], [], [], [], 0, false⟩ (0, 0) (0, 1)) 0 =
      ⟨1, 1, fun _ _ => ⟨9, 255⟩⟩ ∧
    ∃ u, undoStep (move_overwrite
      ⟨⟨1, 1, 2, 2⟩, [((0, 0), 0), ((0, 1), 1)],
        [(0, ⟨⟨1, 1, fun _ _ => ⟨7, 255⟩⟩, (0, 0), true⟩),
         (1, ⟨⟨1, 1, fun _ _ => ⟨9, 255⟩⟩, (0, 1), true⟩)], 2,
        [], [], [], [], 0, false⟩ (0, 0) (0, 1)) = .ok u ∧
      contentAt u (0, 0) = some ⟨1, 1, fun _ _ => ⟨7, 255⟩⟩ ∧
      OptImgEquiv (contentAt u (0, 1)) (some ⟨1, 1, fun _ _ => ⟨9, 255⟩⟩) ∧
      u.undoStack = [] :=
  move_overwrite_scenario
    ⟨⟨1, 1, 2, 2⟩, [((0, 0), 0), ((0, 1), 1)],
      [(0, ⟨⟨1, 1, fun _ _ => ⟨7, 255⟩⟩, (0, 0), true⟩),
       (1, ⟨⟨1, 1, fun _ _ => ⟨9, 255⟩⟩, (0, 1), true⟩)], 2,
      [], [], [], [], 0, false⟩ (0, 0) (0, 1) 0 1
    ⟨1, 1, fun _ _ => ⟨7, 255⟩⟩ ⟨1, 1, fun _ _ => ⟨9, 255⟩⟩
    rfl (by decide) (by intro e he; fin_cases he <;> decide)
    (by decide) (by decide) rfl rfl rfl rfl
    rfl rfl rfl
    (by intro x y hx hy h; simp at h)

/-- Witness for `artifact_lifetime` on a concrete session holding one
valid item and one stale artifact. -/
theorem artifact_lifetime_witness :
    (create_temp ⟨⟨1, 1, 2, 2⟩, [((0, 0), 0)],
        [(0, ⟨⟨1, 1, fun _ _ => ⟨7, 255⟩⟩, (0, 0), true⟩)], 1,
        [], [], [(0, ⟨1, 1, fun _ _ => ⟨9, 255⟩⟩)], [0], 1, false⟩ 0).2 =
      some 1 ∧
      1 ∈ (create_temp ⟨⟨1, 1, 2, 2⟩, [((0, 0), 0)],
        [(0, ⟨⟨1, 1, fun _ _ => ⟨7, 255⟩⟩, (0, 0), true⟩)], 1,
        [], [], [(0, ⟨1, 1, fun _ _ => ⟨9, 255⟩⟩)], [0], 1, false⟩ 0).1.temp ∧
      (∀ e ∈ (delete_temp_files ⟨⟨1, 1, 2, 2⟩, [((0, 0), 0)],
          [(0, ⟨⟨1, 1, fun _ _ => ⟨7, 255⟩⟩, (0, 0), true⟩)], 1,
          [], [], [(0, ⟨1, 1, fun _ _ => ⟨9, 255⟩⟩)], [0], 1,
          false⟩).tempFiles,
        e.1 ∉ ([0] : List Path)) := by
  have hp : (create_temp ⟨⟨1, 1, 2, 2⟩, [((0, 0), 0)],
      [(0, ⟨⟨1, 1, fun _ _ => ⟨7, 255⟩⟩, (0, 0), true⟩)], 1,
      [], [], [(0, ⟨1, 1, fun _ _ => ⟨9, 255⟩⟩)], [0], 1, false⟩ 0).2 = some 1 := rfl
  have h := artifact_lifetime ⟨⟨1, 1, 2, 2⟩, [((0, 0), 0)],
    [(0, ⟨⟨1, 1, fun _ _ => ⟨7, 255⟩⟩, (0, 0), true⟩)], 1,
    [], [], [(0, ⟨1, 1, fun _ _ => ⟨9, 255⟩⟩)], [0], 1, false⟩ 0 1 hp
  exact ⟨hp, h.1, h.2.2.1⟩

/-! ### Claim C4: history operations on well-formed stacks never fail -/

theorem undoStep_nil (s : AppState) (h : s.undoStack = []) :
    undoStep s = .ok s := by
  unfold undoStep
  rw [h]

theorem redoStep_nil (s : AppState) (h : s.redoStack = []) :
    redoStep s = .ok s := by
  unfold redoStep
  rw [h]

theorem undoStep_ok_of_topOK (s : AppState) (hok : UndoTopOK s) :
    stepOk (undoStep s) = true := by
  unfold UndoTopOK at hok
  rcases hstk : s.undoStack with _ | ⟨act, rest⟩
  · rw [undoStep_nil s hstk]
    rfl
  · rw [hstk] at hok
    rcases act with ⟨i, temp⟩ | ⟨i, temp⟩ | ⟨a, b, temp, mk⟩ | temp
    · have hok' : (dictGet s.images i).isSome = true := hok
      rcases hx : dictGet s.images i with _ | v
      · rw [hx] at hok'
        cases hok'
      · unfold stepOk undoStep
        rw [hstk]
        dsimp only
        rw [show dictGet ({ s with undoStack := rest } : AppState).images i =
          some v from hx]
    · have hok' : temp.isSome = true := hok
      rcases temp with _ | p
      · cases hok'
      · unfold stepOk undoStep
        rw [hstk]
    · rcases mk with _ | _
      · unfold stepOk undoStep
        rw [hstk]
      · have hok' : (dictGet s.images b).isSome = true := hok
        rcases hx : dictGet s.images b with _ | v
        · rw [hx] at hok'
          cases hok'
        · unfold stepOk undoStep
          rw [hstk]
          dsimp only
          rw [show dictGet ({ s with undoStack := rest } : AppState).images b =
            some v from hx]
    · unfold stepOk undoStep
      rw [hstk]

theorem redoStep_ok_of_topOK (s : AppState) (hok : RedoTopOK s) :
    stepOk (redoStep s) = true := by
  unfold RedoTopOK at hok
  rcases hstk : s.redoStack with _ | ⟨act, rest⟩
  · rw [redoStep_nil s hstk]
    rfl
  · rw [hstk] at hok
    rcases act with ⟨i, temp⟩ | ⟨i, temp⟩ | ⟨a, b, temp, mk⟩ | temp
    · have hok' : temp.isSome = true := hok
      rcases temp with _ | p
      · cases hok'
      · unfold stepOk redoStep
        rw [hstk]
    · unfold stepOk redoStep
      rw [hstk]
    · rcases mk with _ | _
      · have hok' : (dictGet s.images a).isSome = true ∧
            (dictGet s.images b).isSome = true := hok
        rcases hx : dictGet s.images a with _ | v
        · rw [hx] at hok'
          cases hok'.1
        · rcases hy : dictGet s.images b with _ | w
          · rw [hy] at hok'
            cases hok'.2
          · unfold stepOk redoStep
            rw [hstk]
            dsimp only
            rw [show dictGet ({ s with redoStack := rest } : AppState).images a =
              some v from hx,
              show dictGet ({ s with redoStack := rest } : AppState).images b =
              some w from hy]
      · have hok' : (dictGet (remove_from_grid
            { s with redoStack := rest } b false).1.images a).isSome = true := hok
        rcases hx : dictGet (remove_from_grid
            { s with redoStack := rest } b false).1.images a with _ | v
        · rw [hx] at hok'
          cases hok'
        · unfold stepOk redoStep
          rw [hstk]
          dsimp only
          rw [hx]
    · unfold stepOk redoStep
      rw [hstk]

/-- C4: on well-formed stacks (top-of-stack data conditions as produced
by recorded mutations on the live store) `undo()` and `redo()` complete
without raising; with an empty stack each is a no-op returning the state
unchanged. -/
theorem history_ops_no_fault (s : AppState) :
    (UndoTopOK s → stepOk (undoStep s) = true) ∧
    (RedoTopOK s → stepOk (redoStep s) = true) ∧
    (s.undoStack = [] → undoStep s = .ok s) ∧
    (s.redoStack = [] → redoStep s = .ok s) :=
  ⟨undoStep_ok_of_topOK s, redoStep_ok_of_topOK s,
   undoStep_nil s, redoStep_nil s⟩

/-- Witness for `history_ops_no_fault`: a session with an ADD on the undo
list at an occupied cell and a DELETE on the redo list, and an empty
session for the no-op part. -/
theorem history_ops_no_fault_witness :
    stepOk (undoStep ⟨⟨1, 1, 2, 2⟩, [((0, 0), 0)],
      [(0, ⟨⟨1, 1, fun _ _ => ⟨7, 255⟩⟩, (0, 0), true⟩)], 1,
      [Action.add (0, 0) none], [Action.delete (0, 1) none],
      [], [], 0, false⟩) = true ∧
    stepOk (redoStep ⟨⟨1, 1, 2, 2⟩, [((0, 0), 0)],
      [(0, ⟨⟨1, 1, fun _ _ => ⟨7, 255⟩⟩, (0, 0), true⟩)], 1,
      [Action.add (0, 0) none], [Action.delete (0, 1) none],
      [], [], 0, false⟩) = true ∧
    undoStep ⟨⟨1, 1, 2, 2⟩, [], [], 0, [], [], [], [], 0, false⟩ =
      .ok ⟨⟨1, 1, 2, 2⟩, [], [], 0, [], [], [], [], 0, false⟩ ∧
    redoStep ⟨⟨1, 1, 2, 2⟩, [], [], 0, [], [], [], [], 0, false⟩ =
      .ok ⟨⟨1, 1, 2, 2⟩, [], [], 0, [], [], [], [], 0, false⟩ :=
  ⟨(history_ops_no_fault ⟨⟨1, 1, 2, 2⟩, [((0, 0), 0)],
      [(0, ⟨⟨1, 1, fun _ _ => ⟨7, 255⟩⟩, (0, 0), true⟩)], 1,
      [Action.add (0, 0) none], [Action.delete (0, 1) none],
      [], [], 0, false⟩).1 (by exact rfl),
   (history_ops_no_fault ⟨⟨1, 1, 2, 2⟩, [((0, 0), 0)],
      [(0, ⟨⟨1, 1, fun _ _ => ⟨7, 255⟩⟩, (0, 0), true⟩)], 1,
      [Action.add (0, 0) none], [Action.delete (0, 1) none],
      [], [], 0, false⟩).2.1 trivial,
   (history_ops_no_fault ⟨⟨1, 1, 2, 2⟩, [], [], 0, [], [], [], [], 0,
      false⟩).2.2.1 rfl,
   (history_ops_no_fault ⟨⟨1, 1, 2, 2⟩, [], [], 0, [], [], [], [], 0,
      false⟩).2.2.2 rfl⟩

/-! ### Geometry of the cell grid -/

theorem int_nonneg_of_mul {a w : Int} (hw : 0 < w) (h : 0 ≤ a * w) : 0 ≤ a := by
  by_contra hneg
  push_neg at hneg
  nlinarith

theorem out_of_bounds_false_iff (c : Cfg) (hc : CfgOK c) (i : Index) :
    out_of_bounds c i = false ↔
      0 ≤ i.1 ∧ i.1 < (grid_col c : Int) ∧ 0 ≤ i.2 ∧ i.2 < (grid_row c : Int) := by
  obtain ⟨hw, hh, hgc, hgr⟩ := hc
  have hwi : (0 : Int) < (c.cellWidth : Int) := by exact_mod_cast hw
  have hhi : (0 : Int) < (c.cellHeight : Int) := by exact_mod_cast hh
  unfold out_of_bounds cell_origin grid_col grid_row
  simp only [Bool.or_eq_false_iff, decide_eq_false_iff_not, not_lt, gt_iff_lt]
  constructor
  · rintro ⟨⟨⟨h1, h2⟩, h3⟩, h4⟩
    refine ⟨int_nonneg_of_mul hwi h1, ?_, int_nonneg_of_mul hhi h3, ?_⟩
    · have := le_of_mul_le_mul_right h2 hwi
      omega
    · have := le_of_mul_le_mul_right h4 hhi
      omega
  · rintro ⟨h1, h2, h3, h4⟩
    refine ⟨⟨⟨mul_nonneg h1 hwi.le, ?_⟩, mul_nonneg h3 hhi.le⟩, ?_⟩
    · exact mul_le_mul_of_nonneg_right (by omega) hwi.le
    · exact mul_le_mul_of_nonneg_right (by omega) hhi.le

theorem tile_eq {cw : Nat} (hcw : 0 < cw) {a b da db : Nat}
    (h : a * cw + da = b * cw + db) (hda : da < cw) (hdb : db < cw) :
    a = b ∧ da = db := by
  have h1 : (cw * a + da) / cw = a := by
    rw [Nat.mul_add_div hcw, Nat.div_eq_of_lt hda]
    omega
  have h2 : (cw * b + db) / cw = b := by
    rw [Nat.mul_add_div hcw, Nat.div_eq_of_lt hdb]
    omega
  have h3 : cw * a + da = cw * b + db := by
    rw [Nat.mul_comm cw a, Nat.mul_comm cw b]
    exact h
  have hab : a = b := by
    rw [← h1, ← h2, h3]
  subst hab
  exact ⟨rfl, by omega⟩

/-! ### Locating a heap entry -/

theorem heap_entry_split (hp : List (ItemId × Item)) (k : ItemId)
    (hs : (heapGet hp k).inScene = true) :
    ∃ L1 L2, hp = L1 ++ (k, heapGet hp k) :: L2 ∧ ∀ e ∈ L1, e.1 ≠ k := by
  induction hp with
  | nil => cases hs
  | cons e es ih =>
    by_cases he : e.1 = k
    · refine ⟨[], es, ?_, by simp⟩
      rw [List.nil_append, heapGet, if_pos he, ← he]
    · have hg : heapGet (e :: es) k = heapGet es k := by
        rw [heapGet, if_neg he]
      rw [hg] at hs
      obtain ⟨L1, L2, hsplit, hL1⟩ := ih hs
      refine ⟨e :: L1, L2, ?_, ?_⟩
      · rw [List.cons_append, hg, ← hsplit]
      · intro e2 he2
        rcases List.mem_cons.mp he2 with h | h
        · rw [h]; exact he
        · exact hL1 e2 h

theorem heapGet_eq_of_mem_nodup {hp : List (ItemId × Item)}
    (hnd : (hp.map fun e => e.1).Nodup) {e : ItemId × Item} (he : e ∈ hp) :
    heapGet hp e.1 = e.2 := by
  induction hp with
  | nil => cases he
  | cons a as ih =>
    rw [List.map_cons, List.nodup_cons] at hnd
    rcases List.mem_cons.mp he with h | h
    · rw [h, heapGet, if_pos rfl]
    · have hne : a.1 ≠ e.1 := by
        intro hq
        exact hnd.1 (hq ▸ List.mem_map.mpr ⟨e, h, rfl⟩)
      rw [heapGet, if_neg hne]
      exact ih hnd.2 h

/-! ### Pixel characterisation of the scene composite -/

theorem paintItem_px_skip (cv : Img) (it : Item) (x y : Nat)
    (h : ¬ Covers it x y) : (paintItem cv it).px x y = cv.px x y := by
  unfold Covers at h
  unfold paintItem
  dsimp only
  rw [if_neg h]

theorem paintItem_px_hit (cv : Img) (it : Item) (x y : Nat)
    (h : Covers it x y) :
    (paintItem cv it).px x y =
      pixOver (it.content.px ((x : Int) - it.pos.1).toNat
        ((y : Int) - it.pos.2).toNat) (cv.px x y) := by
  unfold Covers at h
  unfold paintItem
  dsimp only
  rw [if_pos h]

theorem paint_fold_px_skip (L : List Item) (cv : Img) (x y : Nat)
    (h : ∀ it ∈ L, it.inScene = true → ¬ Covers it x y) :
    ((L.foldl (fun c it => if it.inScene then paintItem c it else c) cv)).px x y
      = cv.px x y := by
  induction L generalizing cv with
  | nil => rfl
  | cons a as ih =>
    rw [List.foldl_cons]
    rcases ha : a.inScene with _ | _
    · rw [if_neg Bool.false_ne_true]
      exact ih cv fun it hit hsc => h it (List.mem_cons_of_mem a hit) hsc
    · rw [if_pos rfl,
        ih (paintItem cv a) fun it hit hsc => h it (List.mem_cons_of_mem a hit) hsc,
        paintItem_px_skip cv a x y (h a (List.mem_cons_self a as) ha)]

theorem paint_fold_px_hit (L1 L2 : List Item) (it : Item) (cv : Img) (x y : Nat)
    (hsc : it.inScene = true) (hcov : Covers it x y)
    (h1 : ∀ u ∈ L1, u.inScene = true → ¬ Covers u x y)
    (h2 : ∀ u ∈ L2, u.inScene = true → ¬ Covers u x y) :
    (((L1 ++ it :: L2).foldl
        (fun c u => if u.inScene then paintItem c u else c) cv)).px x y =
      pixOver (it.content.px ((x : Int) - it.pos.1).toNat
        ((y : Int) - it.pos.2).toNat) (cv.px x y) := by
  rw [List.foldl_append, List.foldl_cons, if_pos hsc,
    paint_fold_px_skip L2 _ x y h2,
    paintItem_px_hit _ it x y hcov,
    paint_fold_px_skip L1 cv x y h1]

theorem pixOver_norm {im : Img} (hn : Img.Norm im) {dx dy : Nat}
    (hdx : dx < im.width) (hdy : dy < im.height) :
    pixOver (im.px dx dy) transparentPix = im.px dx dy := by
  by_cases hα : (im.px dx dy).alpha = 0
  · rw [pixOver, if_pos hα, hn dx dy hdx hdy hα]
  · rw [pixOver, if_neg hα]

theorem scene_item_cell (s : AppState) (hf : FaithfulScene s)
    {e : ItemId × Item} (he : e ∈ s.items) (hsc : e.2.inScene = true) :
    ∃ i : Index, dictGet s.images i = some e.1 ∧
      heapGet s.items e.1 = e.2 ∧
      e.2.pos = cell_origin s.cfg i ∧
      GoodCell s.cfg e.2.content ∧
      out_of_bounds s.cfg i = false := by
  obtain ⟨f1, f2, f3, f4, f5, f6⟩ := hf
  obtain ⟨i, hi⟩ := f5 e he hsc
  have heq : heapGet s.items e.1 = e.2 := heapGet_eq_of_mem_nodup f6 he
  have hmem : (i, e.1) ∈ s.images := dictGet_mem hi
  have h2 := f2 (i, e.1) hmem
  have h1 := f1 (i, e.1) hmem
  have h2a : (heapGet s.items e.1).pos = cell_origin s.cfg i := h2.1
  have h2c : GoodCell s.cfg (heapGet s.items e.1).content := h2.2.2
  rw [heq] at h2a h2c
  exact ⟨i, hi, heq, h2a, h2c, h1⟩

theorem covers_tile (s : AppState) (hc : CfgOK s.cfg) (hf : FaithfulScene s)
    {e : ItemId × Item} (he : e ∈ s.items) (hsc : e.2.inScene = true)
    {col row dx dy : Nat}
    (hdx : dx < s.cfg.cellWidth) (hdy : dy < s.cfg.cellHeight)
    (hcov : Covers e.2
      (col * s.cfg.cellWidth + dx) (row * s.cfg.cellHeight + dy)) :
    dictGet s.images ((col : Int), (row : Int)) = some e.1 := by
  obtain ⟨i, hi, _, hpos, hgood, hib⟩ := scene_item_cell s hf he hsc
  obtain ⟨hi1, _, hi3, _⟩ := (out_of_bounds_false_iff _ hc i).mp hib
  obtain ⟨hcv1, hcv2, hcv3, hcv4⟩ := hcov
  rw [hpos] at hcv1 hcv2 hcv3 hcv4
  rw [hgood.1] at hcv2
  rw [hgood.2.1] at hcv4
  unfold cell_origin at hcv1 hcv2 hcv3 hcv4
  set ci := i.1.toNat with hci
  set ri := i.2.toNat with hri
  have hie1 : i.1 = (ci : Int) := (Int.toNat_of_nonneg hi1).symm
  have hie2 : i.2 = (ri : Int) := (Int.toNat_of_nonneg hi3).symm
  rw [hie1] at hcv1 hcv2
  rw [hie2] at hcv3 hcv4
  have hx : col * s.cfg.cellWidth + dx =
      ci * s.cfg.cellWidth + (col * s.cfg.cellWidth + dx - ci * s.cfg.cellWidth) ∧
      col * s.cfg.cellWidth + dx - ci * s.cfg.cellWidth < s.cfg.cellWidth := by
    push_cast at hcv1 hcv2
    omega
  have hy : row * s.cfg.cellHeight + dy =
      ri * s.cfg.cellHeight +
        (row * s.cfg.cellHeight + dy - ri * s.cfg.cellHeight) ∧
      row * s.cfg.cellHeight + dy - ri * s.cfg.cellHeight < s.cfg.cellHeight := by
    push_cast at hcv3 hcv4
    omega
  have hcol : col = ci := (tile_eq hc.1 hx.1 hdx hx.2).1
  have hrow : row = ri := (tile_eq hc.2.1 hy.1 hdy hy.2).1
  have hieq : i = ((col : Int), (row : Int)) := by
    rcases i with ⟨i1, i2⟩
    rw [Prod.mk.injEq]
    constructor
    · rw [hcol]
      exact hie1
    · rw [hrow]
      exact hie2
  rw [← hieq]
  exact hi

theorem dict_value_unique (s : AppState) (hf : FaithfulScene s)
    {i j : Index} {v : ItemId}
    (hiv : dictGet s.images i = some v) (hjv : dictGet s.images j = some v) :
    i = j := by
  have h4 := hf.2.2.2.1
  have hmi : (i, v) ∈ s.images := dictGet_mem hiv
  have hmj : (j, v) ∈ s.images := dictGet_mem hjv
  have := List.inj_on_of_nodup_map h4 hmi hmj rfl
  exact congrArg Prod.fst this

theorem renderAll_px_empty (s : AppState) (hc : CfgOK s.cfg)
    (hf : FaithfulScene s) (col row dx dy : Nat)
    (hdx : dx < s.cfg.cellWidth) (hdy : dy < s.cfg.cellHeight)
    (hocc : dictGet s.images ((col : Int), (row : Int)) = none) :
    (renderAll s).px (col * s.cfg.cellWidth + dx)
      (row * s.cfg.cellHeight + dy) = transparentPix := by
  unfold renderAll
  rw [paint_fold_px_skip]
  intro u hu hscn hcov
  obtain ⟨e, hem, heq⟩ := List.mem_map.mp hu
  rw [← heq] at hscn hcov
  have := covers_tile s hc hf hem hscn hdx hdy hcov
  rw [hocc] at this
  cases this

theorem renderAll_px_occ (s : AppState) (hc : CfgOK s.cfg)
    (hf : FaithfulScene s) (col row dx dy : Nat) (iid : ItemId)
    (hdx : dx < s.cfg.cellWidth) (hdy : dy < s.cfg.cellHeight)
    (hocc : dictGet s.images ((col : Int), (row : Int)) = some iid) :
    (renderAll s).px (col * s.cfg.cellWidth + dx)
      (row * s.cfg.cellHeight + dy) =
      (heapGet s.items iid).content.px dx dy := by
  have hmem : (((col : Int), (row : Int)), iid) ∈ s.images := dictGet_mem hocc
  have hprops := hf.2.1 _ hmem
  have hscn : (heapGet s.items iid).inScene = true := hprops.2.1
  have hpos : (heapGet s.items iid).pos =
      cell_origin s.cfg ((col : Int), (row : Int)) := hprops.1
  have hgood : GoodCell s.cfg (heapGet s.items iid).content := hprops.2.2
  obtain ⟨H1, H2, hsplit, hH1⟩ := heap_entry_split s.items iid hscn
  have hH2 : ∀ e ∈ H2, e.1 ≠ iid := by
    have hnd := hf.2.2.2.2.2
    rw [hsplit, List.map_append, List.map_cons] at hnd
    have := (List.nodup_append.mp hnd).2
    rw [List.nodup_cons] at this
    intro e he2 hek
    exact this.1.1 (hek ▸ List.mem_map.mpr ⟨e, he2, rfl⟩)
  unfold renderAll
  rw [hsplit, List.map_append, List.map_cons]
  have hcov : Covers (heapGet s.items iid)
      (col * s.cfg.cellWidth + dx) (row * s.cfg.cellHeight + dy) := by
    refine ⟨?_, ?_, ?_, ?_⟩ <;>
      · rw [hpos]
        unfold cell_origin
        first
        | (rw [hgood.1]; push_cast; omega)
        | (rw [hgood.2.1]; push_cast; omega)
        | (push_cast; omega)
  rw [paint_fold_px_hit (H1.map fun e => e.2) (H2.map fun e => e.2)
    (heapGet s.items iid) _ _ _ hscn hcov ?_ ?_]
  · have hdxe : (((col * s.cfg.cellWidth + dx : Nat) : Int) -
        (heapGet s.items iid).pos.1).toNat = dx := by
      rw [hpos]
      unfold cell_origin
      push_cast
      omega
    have hdye : (((row * s.cfg.cellHeight + dy : Nat) : Int) -
        (heapGet s.items iid).pos.2).toNat = dy := by
      rw [hpos]
      unfold cell_origin
      push_cast
      omega
    rw [hdxe, hdye, ← hsplit]
    show pixOver ((heapGet s.items iid).content.px dx dy) transparentPix =
      (heapGet s.items iid).content.px dx dy
    exact pixOver_norm hgood.2.2.2 (by rw [hgood.1]; exact hdx)
      (by rw [hgood.2.1]; exact hdy)
  · intro u hu hscn2 hcov2
    obtain ⟨e, hem, heq⟩ := List.mem_map.mp hu
    have hems : e ∈ s.items := by
      rw [hsplit]
      exact List.mem_append.mpr (Or.inl hem)
    rw [← heq] at hscn2 hcov2
    have := covers_tile s hc hf hems hscn2 hdx hdy hcov2
    rw [hocc] at this
    injection this with hv
    exact hH1 e hem hv.symm
  · intro u hu hscn2 hcov2
    obtain ⟨e, hem, heq⟩ := List.mem_map.mp hu
    have hems : e ∈ s.items := by
      rw [hsplit]
      exact List.mem_append.mpr (Or.inr (List.mem_cons_of_mem _ hem))
    rw [← heq] at hscn2 hcov2
    have := covers_tile s hc hf hems hscn2 hdx hdy hcov2
    rw [hocc] at this
    injection this with hv
    exact hH2 e hem hv.symm

/-! ### Cropping the composite back into cells -/

theorem cell_origin_toNat (c : Cfg) (col row : Nat) :
    (cell_origin c ((col : Int), (row : Int))).1.toNat = col * c.cellWidth ∧
      (cell_origin c ((col : Int), (row : Int))).2.toNat = row * c.cellHeight := by
  unfold cell_origin
  constructor <;>
    · show ((_ : Int) * _).toNat = _
      rw [← Nat.cast_mul, Int.toNat_natCast]

theorem crop_occ (s : AppState) (hc : CfgOK s.cfg) (hf : FaithfulScene s)
    (col row : Nat) (iid : ItemId)
    (hocc : dictGet s.images ((col : Int), (row : Int)) = some iid)
    (hcol : col < grid_col s.cfg) (hrowm : (row : Int) ≤ max_row s) :
    Img.Equiv (cropImg (renderAll s) (col * s.cfg.cellWidth)
        (row * s.cfg.cellHeight) s.cfg.cellWidth s.cfg.cellHeight)
      (heapGet s.items iid).content := by
  have hgood := (hf.2.1 _ (dictGet_mem hocc)).2.2
  refine ⟨by rw [hgood.1]; rfl, by rw [hgood.2.1]; rfl, ?_⟩
  intro dx dy hdx hdy
  have hdx' : dx < s.cfg.cellWidth := hdx
  have hdy' : dy < s.cfg.cellHeight := hdy
  have hsw : col * s.cfg.cellWidth + dx < (renderAll s).width := by
    rw [(renderAll_dims s).1]
    have hexp : (col + 1) * s.cfg.cellWidth =
        col * s.cfg.cellWidth + s.cfg.cellWidth := Nat.succ_mul col _
    have hle : (col + 1) * s.cfg.cellWidth ≤
        grid_col s.cfg * s.cfg.cellWidth := Nat.mul_le_mul_right _ hcol
    omega
  have hsh : row * s.cfg.cellHeight + dy < (renderAll s).height := by
    rw [(renderAll_dims s).2]
    have hmr0 : 0 ≤ max_row s := le_trans (Int.ofNat_nonneg row) hrowm
    have hcast : max_row s + 1 = (((max_row s).toNat + 1 : Nat) : Int) := by
      omega
    rw [hcast, ← Nat.cast_mul, Int.toNat_natCast]
    have hrown : row ≤ (max_row s).toNat := by omega
    have hexp : (row + 1) * s.cfg.cellHeight =
        row * s.cfg.cellHeight + s.cfg.cellHeight := Nat.succ_mul row _
    have hle : (row + 1) * s.cfg.cellHeight ≤
        ((max_row s).toNat + 1) * s.cfg.cellHeight :=
      Nat.mul_le_mul_right _ (by omega)
    omega
  show (if dx < s.cfg.cellWidth ∧ dy < s.cfg.cellHeight ∧
      col * s.cfg.cellWidth + dx < (renderAll s).width ∧
      row * s.cfg.cellHeight + dy < (renderAll s).height then
    (renderAll s).px (col * s.cfg.cellWidth + dx) (row * s.cfg.cellHeight + dy)
    else transparentPix) = (heapGet s.items iid).content.px dx dy
  rw [if_pos ⟨hdx', hdy', hsw, hsh⟩]
  exact renderAll_px_occ s hc hf col row dx dy iid hdx' hdy' hocc

theorem crop_empty (s : AppState) (hc : CfgOK s.cfg) (hf : FaithfulScene s)
    (col row : Nat)
    (hocc : dictGet s.images ((col : Int), (row : Int)) = none) :
    has_valid_pixel (cropImg (renderAll s) (col * s.cfg.cellWidth)
      (row * s.cfg.cellHeight) s.cfg.cellWidth s.cfg.cellHeight) = false := by
  apply has_valid_pixel_of_transparent
  intro dx dy hdx hdy
  have hdx' : dx < s.cfg.cellWidth := hdx
  have hdy' : dy < s.cfg.cellHeight := hdy
  show (if dx < s.cfg.cellWidth ∧ dy < s.cfg.cellHeight ∧
      col * s.cfg.cellWidth + dx < (renderAll s).width ∧
      row * s.cfg.cellHeight + dy < (renderAll s).height then
    (renderAll s).px (col * s.cfg.cellWidth + dx) (row * s.cfg.cellHeight + dy)
    else transparentPix) = transparentPix
  by_cases hin : dx < s.cfg.cellWidth ∧ dy < s.cfg.cellHeight ∧
      col * s.cfg.cellWidth + dx < (renderAll s).width ∧
      row * s.cfg.cellHeight + dy < (renderAll s).height
  · rw [if_pos hin]
    exact renderAll_px_empty s hc hf col row dx dy hdx' hdy' hocc
  · rw [if_neg hin]

theorem crop_norm (im : Img) (hn : Img.Norm im) (ox oy w h : Nat) :
    Img.Norm (cropImg im ox oy w h) := by
  intro dx dy hdx hdy hα
  have hdx' : dx < w := hdx
  have hdy' : dy < h := hdy
  show (if dx < w ∧ dy < h ∧ ox + dx < im.width ∧ oy + dy < im.height then
      im.px (ox + dx) (oy + dy) else transparentPix) = transparentPix
  by_cases hin : dx < w ∧ dy < h ∧ ox + dx < im.width ∧ oy + dy < im.height
  · rw [if_pos hin]
    rw [show (cropImg im ox oy w h).px dx dy =
      im.px (ox + dx) (oy + dy) from by
        show (if dx < w ∧ dy < h ∧ ox + dx < im.width ∧ oy + dy < im.height then
            im.px (ox + dx) (oy + dy) else transparentPix) = _
        rw [if_pos hin]] at hα
    exact hn _ _ hin.2.2.1 hin.2.2.2 hα
  · rw [if_neg hin]

/-! ### The cell loop of `load` -/

theorem mem_load_cells (c : Cfg) (im : Img) (cr : Nat × Nat) :
    cr ∈ load_cells c im ↔ cr.1 < grid_col c ∧
      cr.2 < max (min (im.height / c.cellHeight + 1) (grid_row c)) 1 := by
  unfold load_cells
  rcases cr with ⟨a, b⟩
  simp only [List.mem_flatMap, List.mem_map, List.mem_range, Prod.mk.injEq]
  constructor
  · rintro ⟨col, hcol, row, hrow, h1, h2⟩
    exact ⟨h1 ▸ hcol, h2 ▸ hrow⟩
  · rintro ⟨h1, h2⟩
    exact ⟨a, h1, b, h2, rfl, rfl⟩

theorem nodup_load_cells (c : Cfg) (im : Img) : (load_cells c im).Nodup := by
  unfold load_cells
  rw [List.nodup_flatMap]
  constructor
  · intro col _
    exact (List.nodup_range _).map fun r1 r2 h => (Prod.mk.injEq _ _ _ _ ▸ h).2
  · refine List.Pairwise.imp ?_ (List.pairwise_lt_range _)
    intro a b hab
    intro x hx1 hx2
    obtain ⟨r1, _, h1⟩ := List.mem_map.mp hx1
    obtain ⟨r2, _, h2⟩ := List.mem_map.mp hx2
    rw [← h1, Prod.mk.injEq] at h2
    omega

theorem cellCrop_eq (c : Cfg) (im : Img) (col row : Nat) :
    cellCrop c im (col, row) =
      cropImg im (col * c.cellWidth) (row * c.cellHeight)
        c.cellWidth c.cellHeight := by
  unfold cellCrop
  dsimp only
  rw [(cell_origin_toNat c col row).1, (cell_origin_toNat c col row).2]

theorem norm_congr {a b : Img} (he : Img.Equiv a b) (hn : Img.Norm b) :
    Img.Norm a := by
  intro x y hx hy hα
  rw [he.2.2 x y hx hy] at hα ⊢
  exact hn x y (he.1 ▸ hx) (he.2.1 ▸ hy) hα

theorem load_cell_skip_invalid (c : Cfg) (im : Img) (t : AppState)
    (cr : Nat × Nat) (hv : has_valid_pixel (cellCrop c im cr) = false) :
    load_cell c im none t cr = t := by
  unfold cellCrop at hv
  unfold load_cell
  dsimp only
  rw [hv, if_pos rfl]

theorem load_cell_skip_oob (c : Cfg) (im : Img) (t : AppState)
    (cr : Nat × Nat) (hv : has_valid_pixel (cellCrop c im cr) = true)
    (hb : out_of_bounds c ((cr.1 : Int), (cr.2 : Int)) = true) :
    load_cell c im none t cr = t := by
  unfold cellCrop at hv
  unfold load_cell
  dsimp only
  simp only [hv, Bool.true_eq_false, if_false]
  rw [hb, if_pos rfl]

theorem load_cell_write (c : Cfg) (im : Img) (t : AppState) (cr : Nat × Nat)
    (hv : has_valid_pixel (cellCrop c im cr) = true)
    (hb : out_of_bounds c ((cr.1 : Int), (cr.2 : Int)) = false)
    (hids : IdsOK t) :
    contentAt (load_cell c im none t cr) ((cr.1 : Int), (cr.2 : Int)) =
        some (drawOnCanvas c (cellCrop c im cr)) ∧
      (∀ j : Index, j ≠ ((cr.1 : Int), (cr.2 : Int)) →
        contentAt (load_cell c im none t cr) j = contentAt t j) ∧
      IdsOK (load_cell c im none t cr) := by
  unfold cellCrop at hv ⊢
  unfold load_cell newItem sceneRemove
  dsimp only
  simp only [hv, Bool.true_eq_false, if_false]
  simp only [hb, Bool.false_eq_true, if_false]
  rcases hx : dictGet t.images ((cr.1 : Int), (cr.2 : Int)) with _ | v
  · dsimp only
    refine ⟨?_, ?_, ?_⟩
    · simp [contentAt, dictGet_set_self, heapGet_cons_self]
    · intro j hj
      unfold contentAt
      rw [dictGet_set_ne _ _ _ _ hj]
      rcases hg : dictGet t.images j with _ | w
      · rfl
      · have hw : w < t.nextItem := hids _ (dictGet_mem hg)
        simp only [Option.map_some']
        refine congrArg some ?_
        rw [heapGet_cons_ne _ _ _ _ (Nat.ne_of_lt hw)]
    · intro e he
      have he1 : e ∈ dictSet t.images ((cr.1 : Int), (cr.2 : Int)) t.nextItem := he
      show e.2 < t.nextItem + 1
      rcases e with ⟨j, w⟩
      rcases mem_dictSet he1 with h | h
      · cases h
        exact Nat.lt_succ_self _
      · exact Nat.lt_succ_of_lt (hids _ h)
  · dsimp only
    refine ⟨?_, ?_, ?_⟩
    · simp [contentAt, dictGet_set_self, heapGet_cons_self]
    · intro j hj
      unfold contentAt
      rw [dictGet_set_ne _ _ _ _ hj, dictGet_del_ne _ _ _ hj]
      rcases hg : dictGet t.images j with _ | w
      · rfl
      · have hw : w < t.nextItem := hids _ (dictGet_mem hg)
        simp only [Option.map_some']
        refine congrArg some ?_
        rw [heapGet_cons_ne _ _ _ _ (Nat.ne_of_lt hw)]
        exact heapGet_set_content t.items v w
          (fun it => { it with inScene := false }) (fun _ => rfl)
    · intro e he
      have he1 : e ∈ dictSet
          (dictDel t.images ((cr.1 : Int), (cr.2 : Int)))
          ((cr.1 : Int), (cr.2 : Int)) t.nextItem := he
      show e.2 < t.nextItem + 1
      rcases e with ⟨j, w⟩
      rcases mem_dictSet he1 with h | h
      · cases h
        exact Nat.lt_succ_self _
      · exact Nat.lt_succ_of_lt (hids _ (mem_dictDel h))

theorem load_fold_char (c : Cfg) (im : Img) (L : List (Nat × Nat)) :
    ∀ (t : AppState), IdsOK t → L.Nodup →
      IdsOK (L.foldl (load_cell c im none) t) ∧
      (∀ j : Index,
        (∀ cr ∈ L, ((cr.1 : Int), (cr.2 : Int)) = j →
          has_valid_pixel (cellCrop c im cr) = false ∨
            out_of_bounds c ((cr.1 : Int), (cr.2 : Int)) = true) →
        contentAt (L.foldl (load_cell c im none) t) j = contentAt t j) ∧
      (∀ cr ∈ L,
        has_valid_pixel (cellCrop c im cr) = true →
        out_of_bounds c ((cr.1 : Int), (cr.2 : Int)) = false →
        (∀ cr2 ∈ L, ((cr2.1 : Int), (cr2.2 : Int)) =
            ((cr.1 : Int), (cr.2 : Int)) → cr2 = cr) →
        contentAt (L.foldl (load_cell c im none) t)
            ((cr.1 : Int), (cr.2 : Int)) =
          some (drawOnCanvas c (cellCrop c im cr))) := by
  induction L with
  | nil =>
    intro t hids _
    exact ⟨hids, fun j _ => rfl, fun cr hcr => absurd hcr (List.not_mem_nil cr)⟩
  | cons e L2 ih =>
    intro t hids hnd
    rw [List.nodup_cons] at hnd
    rw [List.foldl_cons]
    by_cases hv : has_valid_pixel (cellCrop c im e) = true
    · by_cases hb : out_of_bounds c ((e.1 : Int), (e.2 : Int)) = true
      · rw [load_cell_skip_oob c im t e hv hb]
        obtain ⟨ih1, ih2, ih3⟩ := ih t hids hnd.2
        refine ⟨ih1, ?_, ?_⟩
        · intro j hskip
          exact ih2 j fun cr hcr h => hskip cr (List.mem_cons_of_mem e hcr) h
        · intro cr hcr hcv hcb huniq
          rcases List.mem_cons.mp hcr with hhead | htail
          · subst hhead
            exact absurd hb (by rw [hcb]; exact Bool.false_ne_true)
          · exact ih3 cr htail hcv hcb
              fun cr2 hcr2 h => huniq cr2 (List.mem_cons_of_mem e hcr2) h
      · have hb2 : out_of_bounds c ((e.1 : Int), (e.2 : Int)) = false :=
          (Bool.not_eq_true _).mp hb
        obtain ⟨hwr, hpres, hcids⟩ := load_cell_write c im t e hv hb2 hids
        obtain ⟨ih1, ih2, ih3⟩ := ih (load_cell c im none t e) hcids hnd.2
        refine ⟨ih1, ?_, ?_⟩
        · intro j hskip
          by_cases hej : ((e.1 : Int), (e.2 : Int)) = j
          · rcases hskip e (List.mem_cons_self e L2) hej with h | h
            · rw [hv] at h
              cases h
            · exact absurd h hb
          · rw [ih2 j fun cr hcr h => hskip cr (List.mem_cons_of_mem e hcr) h,
              hpres j fun hh => hej hh.symm]
        · intro cr hcr hcv hcb huniq
          rcases List.mem_cons.mp hcr with hhead | htail
          · subst hhead
            rw [ih2 _ fun cr2 hcr2 hcrj =>
              absurd (huniq cr2 (List.mem_cons_of_mem cr hcr2) hcrj ▸ hcr2)
                hnd.1]
            exact hwr
          · exact ih3 cr htail hcv hcb
              fun cr2 hcr2 h => huniq cr2 (List.mem_cons_of_mem e hcr2) h
    · have hv2 : has_valid_pixel (cellCrop c im e) = false :=
        (Bool.not_eq_true _).mp hv
      rw [load_cell_skip_invalid c im t e hv2]
      obtain ⟨ih1, ih2, ih3⟩ := ih t hids hnd.2
      refine ⟨ih1, ?_, ?_⟩
      · intro j hskip
        exact ih2 j fun cr hcr h => hskip cr (List.mem_cons_of_mem e hcr) h
      · intro cr hcr hcv hcb huniq
        rcases List.mem_cons.mp hcr with hhead | htail
        · subst hhead
          exact absurd hcv hv
        · exact ih3 cr htail hcv hcb
            fun cr2 hcr2 h => huniq cr2 (List.mem_cons_of_mem e hcr2) h

/-- The central OVERHAUL identity: reloading the scene composite of a
faithful store into a cleared session reproduces the store content. -/
theorem loadSheet_storeEq (s B : AppState) (hc : CfgOK s.cfg)
    (hf : FaithfulScene s) (hB : B.images = []) :
    StoreEq s ((load_cells s.cfg (renderAll s)).foldl
      (load_cell s.cfg (renderAll s) none) B) := by
  have hBids : IdsOK B := by
    intro e he
    rw [hB] at he
    cases he
  obtain ⟨_, hpres, hwrite⟩ :=
    load_fold_char s.cfg (renderAll s) (load_cells s.cfg (renderAll s)) B
      hBids (nodup_load_cells _ _)
  have hBnone : ∀ j : Index, contentAt B j = none := by
    intro j
    unfold contentAt
    rw [hB]
    rfl
  intro j
  rcases hocc : dictGet s.images j with _ | iid
  · rw [hpres j ?_, hBnone j, contentAt_eq_none hocc]
    · trivial
    · intro cr hcr hcrj
      left
      rcases cr with ⟨col, row⟩
      rw [cellCrop_eq]
      exact crop_empty s hc hf col row (hcrj ▸ hocc)
  · have hmem := dictGet_mem hocc
    have hib := hf.1 _ hmem
    obtain ⟨h1, h2, h3, h4⟩ := (out_of_bounds_false_iff _ hc j).mp hib
    set col := j.1.toNat with hcol0
    set row := j.2.toNat with hrow0
    have hj : j = ((col : Int), (row : Int)) := by
      rcases j with ⟨j1, j2⟩
      rw [Prod.mk.injEq]
      constructor <;>
        · show _ = ((Int.toNat _ : Nat) : Int)
          omega
    have hcol : col < grid_col s.cfg := by omega
    have hrowm : (row : Int) ≤ max_row s := by
      have hmr : j.2 ≤ max_row s := max_row_ge s (j, iid) hmem
      omega
    have hrb : row < max (min ((renderAll s).height / s.cfg.cellHeight + 1)
        (grid_row s.cfg)) 1 := by
      have hh := (renderAll_dims s).2
      have hmr0 : 0 ≤ max_row s := le_trans (Int.ofNat_nonneg row) hrowm
      have hcast : max_row s + 1 = (((max_row s).toNat + 1 : Nat) : Int) := by
        omega
      rw [hcast, ← Nat.cast_mul, Int.toNat_natCast] at hh
      rw [hh, Nat.mul_div_cancel _ hc.2.1]
      have hrown : row ≤ (max_row s).toNat := by omega
      have hgr : row < grid_row s.cfg := by omega
      omega
    have hmem2 : (col, row) ∈ load_cells s.cfg (renderAll s) :=
      (mem_load_cells _ _ _).mpr ⟨hcol, hrb⟩
    have hocc2 : dictGet s.images ((col : Int), (row : Int)) = some iid :=
      hj ▸ hocc
    have hgood := (hf.2.1 _ hmem).2.2
    have hequiv := crop_occ s hc hf col row iid hocc2 hcol hrowm
    have hval : has_valid_pixel (cellCrop s.cfg (renderAll s) (col, row)) =
        true := by
      rw [cellCrop_eq, has_valid_pixel_congr hequiv]
      exact hgood.2.2.1
    have hbounds : out_of_bounds s.cfg ((col : Int), (row : Int)) = false :=
      hj ▸ hib
    have hwrote := hwrite (col, row) hmem2 hval hbounds ?_
    · rw [hj, hwrote, contentAt_eq_some hocc2]
      show Img.Equiv ((heapGet s.items iid).content)
        (drawOnCanvas s.cfg (cellCrop s.cfg (renderAll s) (col, row)))
      have hequiv2 : Img.Equiv (cellCrop s.cfg (renderAll s) (col, row))
          ((heapGet s.items iid).content) := by
        rw [cellCrop_eq]
        exact hequiv
      have hcn : Img.Norm (cellCrop s.cfg (renderAll s) (col, row)) :=
        norm_congr hequiv2 hgood.2.2.2
      have hdraw : Img.Equiv
          (drawOnCanvas s.cfg (cellCrop s.cfg (renderAll s) (col, row)))
          (cellCrop s.cfg (renderAll s) (col, row)) :=
        drawOnCanvas_equiv s.cfg _ rfl rfl hcn
      exact hequiv2.symm.trans hdraw.symm
    · intro cr2 hcr2 heq
      rcases cr2 with ⟨c2, r2⟩
      rw [Prod.mk.injEq, Int.natCast_inj, Int.natCast_inj] at heq
      rw [Prod.mk.injEq]
      exact heq

/-! ### Frame facts for the whole-grid load -/

theorem clear_main_view_eq (t : AppState) (ht : t.threadRunning = false) :
    clear_main_view t =
      { t with
        items := t.items.map fun e => (e.1, { e.2 with inScene := false }),
        images := [] } := by
  unfold clear_main_view
  rw [if_neg (by simp [ht])]

theorem clear_frame (t : AppState) :
    (clear_main_view t).cfg = t.cfg ∧
      (clear_main_view t).threadRunning = t.threadRunning ∧
      (clear_main_view t).tempFiles = t.tempFiles ∧
      (clear_main_view t).nextPath = t.nextPath := by
  unfold clear_main_view
  split
  · exact ⟨rfl, rfl, rfl, rfl⟩
  · exact ⟨rfl, rfl, rfl, rfl⟩

theorem load_cell_frame (c : Cfg) (im : Img) (t : AppState) (cr : Nat × Nat) :
    (load_cell c im none t cr).cfg = t.cfg ∧
      (load_cell c im none t cr).threadRunning = t.threadRunning ∧
      (load_cell c im none t cr).tempFiles = t.tempFiles ∧
      (load_cell c im none t cr).nextPath = t.nextPath := by
  unfold load_cell newItem sceneRemove
  dsimp only
  split
  · exact ⟨rfl, rfl, rfl, rfl⟩
  · split
    · exact ⟨rfl, rfl, rfl, rfl⟩
    · split
      · exact ⟨rfl, rfl, rfl, rfl⟩
      · exact ⟨rfl, rfl, rfl, rfl⟩

theorem load_fold_frame (c : Cfg) (im : Img) (L : List (Nat × Nat)) :
    ∀ t : AppState,
      ((L.foldl (load_cell c im none) t).cfg = t.cfg ∧
        (L.foldl (load_cell c im none) t).threadRunning = t.threadRunning ∧
        (L.foldl (load_cell c im none) t).tempFiles = t.tempFiles ∧
        (L.foldl (load_cell c im none) t).nextPath = t.nextPath) := by
  induction L with
  | nil => intro t; exact ⟨rfl, rfl, rfl, rfl⟩
  | cons e L2 ih =>
    intro t
    rw [List.foldl_cons]
    obtain ⟨i1, i2, i3, i4⟩ := ih (load_cell c im none t e)
    obtain ⟨f1, f2, f3, f4⟩ := load_cell_frame c im t e
    exact ⟨i1.trans f1, i2.trans f2, i3.trans f3, i4.trans f4⟩

theorem load_false_true (t : AppState) (im : Img) (ht : t.threadRunning = false) :
    load t im false true none =
      (load_cells t.cfg im).foldl (load_cell t.cfg im none)
        (clear_main_view t) := by
  unfold load
  rw [if_neg (by simp [ht])]
  dsimp only
  simp only [Bool.false_eq_true, false_and, if_false, if_pos]

theorem load_frame (t : AppState) (im : Img) (reset : Bool) (idx : Option Index) :
    (load t im false reset idx).cfg = t.cfg ∧
      (load t im false reset idx).threadRunning = t.threadRunning ∧
      (load t im false reset idx).tempFiles = t.tempFiles ∧
      (load t im false reset idx).nextPath = t.nextPath := by
  unfold load
  split
  · exact ⟨rfl, rfl, rfl, rfl⟩
  · simp only [Bool.false_eq_true, false_and, if_false]
    have hcell : ∀ (c : Cfg) (u : AppState) (cr : Nat × Nat),
        (load_cell c im idx u cr).cfg = u.cfg ∧
        (load_cell c im idx u cr).threadRunning = u.threadRunning ∧
        (load_cell c im idx u cr).tempFiles = u.tempFiles ∧
        (load_cell c im idx u cr).nextPath = u.nextPath := by
      intro c u cr
      unfold load_cell newItem sceneRemove
      dsimp only
      split
      · exact ⟨rfl, rfl, rfl, rfl⟩
      · split
        · exact ⟨rfl, rfl, rfl, rfl⟩
        · split
          · exact ⟨rfl, rfl, rfl, rfl⟩
          · exact ⟨rfl, rfl, rfl, rfl⟩
    have hfold : ∀ (c : Cfg) (L : List (Nat × Nat)) (u : AppState),
        ((L.foldl (load_cell c im idx) u).cfg = u.cfg ∧
          (L.foldl (load_cell c im idx) u).threadRunning = u.threadRunning ∧
          (L.foldl (load_cell c im idx) u).tempFiles = u.tempFiles ∧
          (L.foldl (load_cell c im idx) u).nextPath = u.nextPath) := by
      intro c L
      induction L with
      | nil => intro u; exact ⟨rfl, rfl, rfl, rfl⟩
      | cons e L2 ih =>
        intro u
        rw [List.foldl_cons]
        obtain ⟨i1, i2, i3, i4⟩ := ih (load_cell c im idx u e)
        obtain ⟨f1, f2, f3, f4⟩ := hcell c u e
        exact ⟨i1.trans f1, i2.trans f2, i3.trans f3, i4.trans f4⟩
    split
    · obtain ⟨i1, i2, i3, i4⟩ := hfold t.cfg (load_cells t.cfg im) (clear_main_view t)
      obtain ⟨c1, c2, c3, c4⟩ := clear_frame t
      exact ⟨i1.trans c1, i2.trans c2, i3.trans c3, i4.trans c4⟩
    · exact hfold t.cfg (load_cells t.cfg im) t

/-! ### The undo and redo equations for OVERHAUL -/

theorem undo_overhaul_eq (s : AppState) (temp : Option Path)
    (rest : List Action)
    (hstk : s.undoStack = Action.overhaul temp :: rest) :
    undoStep s = .ok
      (let s0 : AppState := { s with undoStack := rest }
       let pr := create_temp_all s0
       let s2 := match temp with
         | some t => load pr.1 (fileLoad pr.1 t) false true none
         | none => clear_main_view pr.1
       { s2 with redoStack := Action.overhaul (some pr.2) :: s2.redoStack }) := by
  unfold undoStep
  rw [hstk]

theorem redo_overhaul_eq (s : AppState) (temp : Option Path)
    (rest : List Action)
    (hstk : s.redoStack = Action.overhaul temp :: rest) :
    redoStep s = .ok
      (let s0 : AppState := { s with redoStack := rest }
       let pr := create_temp_all s0
       let s2 := match temp with
         | some t => load pr.1 (fileLoad pr.1 t) false true none
         | none => clear_main_view pr.1
       { s2 with undoStack := Action.overhaul (some pr.2) :: s2.undoStack }) := by
  unfold redoStep
  rw [hstk]

/-- Core of the OVERHAUL pair argument, with the state the undo step
loaded abstracted: the redo step reloads the composite persisted from the
original store, so a faithful store is reproduced regardless of what the
undo loaded in between. -/
theorem pair_overhaul_core (s U1 : AppState)
    (hc : CfgOK s.cfg) (hf : FaithfulScene s)
    (hundo : undoStep s = .ok
      { U1 with redoStack := Action.overhaul (some s.nextPath) :: U1.redoStack })
    (h1 : U1.cfg = s.cfg) (h2 : U1.threadRunning = false)
    (h3 : U1.tempFiles = (s.nextPath, renderAll s) :: s.tempFiles)
    (h4 : U1.nextPath = s.nextPath + 1) :
    ∃ t, undoRedoPair s = some t ∧ StoreEq s t := by
  set u : AppState :=
    { U1 with redoStack := Action.overhaul (some s.nextPath) :: U1.redoStack }
    with hu_def
  set P2 : AppState :=
    (create_temp_all { u with redoStack := U1.redoStack }).1 with hP2
  have hP2run : P2.threadRunning = false := h2
  have hP2cfg : P2.cfg = s.cfg := h1
  have hsheet : fileLoad P2 s.nextPath = renderAll s := by
    show fsGet ((U1.nextPath, renderAll { u with redoStack := U1.redoStack }) ::
      U1.tempFiles) s.nextPath = renderAll s
    rw [h3, h4]
    rw [fsGet, if_neg (by simp), fsGet, if_pos rfl]
  set V : AppState :=
    { (load P2 (fileLoad P2 s.nextPath) false true none) with
      undoStack := Action.overhaul (some U1.nextPath) ::
        (load P2 (fileLoad P2 s.nextPath) false true none).undoStack }
    with hV
  have hredo : redoStep u = .ok V :=
    redo_overhaul_eq u (some s.nextPath) U1.redoStack rfl
  refine ⟨V, ?_, ?_⟩
  · unfold undoRedoPair
    rw [hundo]
    dsimp only
    rw [hredo]
  · intro j
    have hBimg : (clear_main_view P2).images = [] := by
      rw [clear_main_view_eq P2 hP2run]
    have hstore := loadSheet_storeEq s (clear_main_view P2) hc hf hBimg
    have hVc : contentAt V j =
        contentAt ((load_cells s.cfg (renderAll s)).foldl
          (load_cell s.cfg (renderAll s) none) (clear_main_view P2)) j := by
      show contentAt (load P2 (fileLoad P2 s.nextPath) false true none) j = _
      rw [load_false_true P2 (fileLoad P2 s.nextPath) hP2run, hsheet, hP2cfg]
    rw [hVc]
    exact hstore j

/-- An `undo(); redo();` pair on an OVERHAUL top restores a faithful
store. -/
theorem pair_overhaul (s : AppState) (temp : Option Path) (rest : List Action)
    (hstk : s.undoStack = Action.overhaul temp :: rest)
    (ht : s.threadRunning = false) (hc : CfgOK s.cfg) (hf : FaithfulScene s) :
    ∃ t, undoRedoPair s = some t ∧ StoreEq s t := by
  set s0 : AppState := { s with undoStack := rest } with hs0
  set P1 : AppState := (create_temp_all s0).1 with hP1
  have hP1run : P1.threadRunning = false := ht
  have hP1cfg : P1.cfg = s.cfg := rfl
  have hP1tf : P1.tempFiles = (s.nextPath, renderAll s) :: s.tempFiles := rfl
  have hP1np : P1.nextPath = s.nextPath + 1 := rfl
  rcases temp with _ | t0
  · refine pair_overhaul_core s (clear_main_view P1) hc hf ?_ ?_ ?_ ?_ ?_
    · exact undo_overhaul_eq s none rest hstk
    · exact (clear_frame P1).1.trans hP1cfg
    · exact (clear_frame P1).2.1.trans hP1run
    · exact (clear_frame P1).2.2.1.trans hP1tf
    · exact (clear_frame P1).2.2.2.trans hP1np
  · refine pair_overhaul_core s (load P1 (fileLoad P1 t0) false true none)
      hc hf ?_ ?_ ?_ ?_ ?_
    · exact undo_overhaul_eq s (some t0) rest hstk
    · exact (load_frame P1 (fileLoad P1 t0) true none).1.trans hP1cfg
    · exact (load_frame P1 (fileLoad P1 t0) true none).2.1.trans hP1run
    · exact (load_frame P1 (fileLoad P1 t0) true none).2.2.1.trans hP1tf
    · exact (load_frame P1 (fileLoad P1 t0) true none).2.2.2.trans hP1np

/-! ### Effects of `remove_from_grid` -/

theorem remove_IdsOK (t : AppState) (i : Index) (ht : t.threadRunning = false)
    (hids : IdsOK t) : IdsOK (remove_from_grid t i false).1 := by
  rcases hocc : dictGet t.images i with _ | iid
  · rw [remove_unoccupied t i false hocc]
    exact hids
  · rcases hv : has_valid_pixel (heapGet t.items iid).content with _ | _
    · rw [remove_occupied_invalid t i iid ht hocc hv]
      intro e he
      exact hids e (mem_dictDel he)
    · rw [remove_occupied_valid t i iid ht hocc hv]
      intro e he
      exact hids e (mem_dictDel he)

theorem remove_fsGet (t : AppState) (i : Index) (ht : t.threadRunning = false)
    (q : Path) (hq : q ≠ t.nextPath) :
    fsGet (remove_from_grid t i false).1.tempFiles q = fsGet t.tempFiles q := by
  rcases hocc : dictGet t.images i with _ | iid
  · rw [remove_unoccupied t i false hocc]
  · rcases hv : has_valid_pixel (heapGet t.items iid).content with _ | _
    · rw [remove_occupied_invalid t i iid ht hocc hv]
    · rw [remove_occupied_valid t i iid ht hocc hv]
      show fsGet ((t.nextPath, (heapGet t.items iid).content) :: t.tempFiles) q =
        fsGet t.tempFiles q
      rw [fsGet, if_neg fun h => hq h.symm]

/-! ### The undo and redo equations for ADD -/

theorem undo_add_none_eq (s : AppState) (rest : List Action) (i : Index)
    (iid : ItemId) (hstk : s.undoStack = Action.add i none :: rest)
    (hocc : dictGet s.images i = some iid) :
    undoStep s = .ok
      { (remove_from_grid { s with undoStack := rest } i false).1 with
        redoStack := Action.add i
            (remove_from_grid { s with undoStack := rest } i false).2 ::
          (remove_from_grid { s with undoStack := rest } i false).1.redoStack } := by
  unfold undoStep
  rw [hstk]
  dsimp only
  rw [show dictGet ({ s with undoStack := rest } : AppState).images i =
    some iid from hocc]

theorem undo_add_some_eq (s : AppState) (rest : List Action) (i : Index)
    (p : Path) (iid : ItemId)
    (hstk : s.undoStack = Action.add i (some p) :: rest)
    (hocc : dictGet s.images i = some iid) :
    undoStep s = .ok
      { { (newItem (remove_from_grid { s with undoStack := rest } i false).1
            (fileLoad (remove_from_grid { s with undoStack := rest } i false).1 p)
            (cell_origin
              (remove_from_grid { s with undoStack := rest } i false).1.cfg
              i)).1 with
          images := dictSet
            (newItem (remove_from_grid { s with undoStack := rest } i false).1
              (fileLoad (remove_from_grid { s with undoStack := rest } i
                false).1 p)
              (cell_origin
                (remove_from_grid { s with undoStack := rest } i false).1.cfg
                i)).1.images i
            (newItem (remove_from_grid { s with undoStack := rest } i false).1
              (fileLoad (remove_from_grid { s with undoStack := rest } i
                false).1 p)
              (cell_origin
                (remove_from_grid { s with undoStack := rest } i false).1.cfg
                i)).2 } with
        redoStack := Action.add i
            (remove_from_grid { s with undoStack := rest } i false).2 ::
          (remove_from_grid { s with undoStack := rest } i
            false).1.redoStack } := by
  unfold undoStep
  rw [hstk]
  dsimp only
  rw [show dictGet ({ s with undoStack := rest } : AppState).images i =
    some iid from hocc]
  rfl

theorem redo_add_eq (s : AppState) (rest : List Action) (i : Index) (p : Path)
    (hstk : s.redoStack = Action.add i (some p) :: rest) :
    redoStep s = .ok
      { add_to_grid (remove_from_grid { s with redoStack := rest } i false).1
          (fileLoad (remove_from_grid { s with redoStack := rest } i false).1 p)
          i false with
        undoStack := Action.add i
            (remove_from_grid { s with redoStack := rest } i false).2 ::
          (add_to_grid
            (remove_from_grid { s with redoStack := rest } i false).1
            (fileLoad (remove_from_grid { s with redoStack := rest } i
              false).1 p)
            i false).undoStack } := by
  unfold redoStep
  rw [hstk]

/-- Core of the ADD pair argument: the redo step evicts whatever the undo
step left at the cell and re-adds the snapshot the undo's removal
persisted of the original content. -/
theorem pair_add_core (s S2 : AppState) (i : Index) (im : Img)
    (hundo : undoStep s = .ok
      { S2 with redoStack := Action.add i (some s.nextPath) :: S2.redoStack })
    (hS2run : S2.threadRunning = false)
    (hS2cfg : S2.cfg = s.cfg)
    (hS2ids : IdsOK S2)
    (hS2np : S2.nextPath = s.nextPath + 1)
    (hS2fs : fsGet S2.tempFiles s.nextPath = im)
    (hS2other : ∀ j : Index, j ≠ i → contentAt S2 j = contentAt s j)
    (him : contentAt s i = some im)
    (hgood : GoodCell s.cfg im) :
    ∃ t, undoRedoPair s = some t ∧ StoreEq s t := by
  set u : AppState :=
    { S2 with redoStack := Action.add i (some s.nextPath) :: S2.redoStack }
    with hu
  set V : AppState :=
    { add_to_grid (remove_from_grid S2 i false).1
        (fileLoad (remove_from_grid S2 i false).1 s.nextPath) i false with
      undoStack := Action.add i (remove_from_grid S2 i false).2 ::
        (add_to_grid (remove_from_grid S2 i false).1
          (fileLoad (remove_from_grid S2 i false).1 s.nextPath) i
          false).undoStack } with hV
  have hredo : redoStep u = .ok V := redo_add_eq u S2.redoStack i s.nextPath rfl
  have hR1run : (remove_from_grid S2 i false).1.threadRunning = false :=
    (remove_frame S2 i).2.1.trans hS2run
  have hR1cfg : (remove_from_grid S2 i false).1.cfg = s.cfg :=
    (remove_frame S2 i).1.trans hS2cfg
  have hR1ids : IdsOK (remove_from_grid S2 i false).1 :=
    remove_IdsOK S2 i hS2run hS2ids
  have hqne : s.nextPath ≠ S2.nextPath := by
    rw [hS2np]
    exact fun h => Nat.succ_ne_self s.nextPath h.symm
  have hR1fs : fileLoad (remove_from_grid S2 i false).1 s.nextPath = im := by
    show fsGet (remove_from_grid S2 i false).1.tempFiles s.nextPath = im
    rw [remove_fsGet S2 i hS2run s.nextPath hqne]
    exact hS2fs
  have hvim : has_valid_pixel
      (fileLoad (remove_from_grid S2 i false).1 s.nextPath) = true := by
    rw [hR1fs]
    exact hgood.2.2.1
  refine ⟨V, ?_, ?_⟩
  · unfold undoRedoPair
    rw [hundo]
    dsimp only
    rw [hredo]
  · intro j
    by_cases hj : j = i
    · subst hj
      show OptImgEquiv (contentAt s j)
        (contentAt (add_to_grid (remove_from_grid S2 j false).1
          (fileLoad (remove_from_grid S2 j false).1 s.nextPath) j false) j)
      rw [add_contentAt_self _ _ j false hvim, him, hR1fs, hR1cfg]
      show Img.Equiv im (drawOnCanvas s.cfg
        (capHeight s.cfg (capWidth s.cfg im)))
      have hcw : capWidth s.cfg im = im := by
        unfold capWidth
        rw [if_neg (by rw [hgood.1]; omega)]
      have hch : capHeight s.cfg im = im := by
        unfold capHeight
        rw [if_neg (by rw [hgood.2.1]; omega)]
      rw [hcw, hch]
      exact (drawOnCanvas_equiv s.cfg im hgood.1 hgood.2.1 hgood.2.2.2).symm
    · show OptImgEquiv (contentAt s j)
        (contentAt (add_to_grid (remove_from_grid S2 i false).1
          (fileLoad (remove_from_grid S2 i false).1 s.nextPath) i false) j)
      rw [add_contentAt_ne _ _ i j false hvim hR1run hR1ids hj,
        remove_contentAt S2 i hS2run j, if_neg hj, hS2other j hj]
      exact OptImgEquiv_refl _

/-- An `undo(); redo();` pair on an ADD top with the recorded cell still
occupied by a well-formed pixmap restores the store. -/
theorem pair_add (s : AppState) (i : Index) (temp : Option Path)
    (rest : List Action) (iid : ItemId)
    (hstk : s.undoStack = Action.add i temp :: rest)
    (ht : s.threadRunning = false) (hids : IdsOK s)
    (hocc : dictGet s.images i = some iid)
    (hgood : GoodCell s.cfg (heapGet s.items iid).content) :
    ∃ t, undoRedoPair s = some t ∧ StoreEq s t := by
  have hts0 : ({ s with undoStack := rest } : AppState).threadRunning = false :=
    ht
  have hoccs0 : dictGet ({ s with undoStack := rest } : AppState).images i =
    some iid := hocc
  have hvx : has_valid_pixel
      (heapGet ({ s with undoStack := rest } : AppState).items iid).content =
      true := hgood.2.2.1
  have hrm := remove_occupied_valid { s with undoStack := rest } i iid
    hts0 hoccs0 hvx
  rcases temp with _ | p
  · have hu0 := undo_add_none_eq s rest i iid hstk hocc
    rw [hrm] at hu0
    refine pair_add_core s _ i ((heapGet s.items iid).content)
      hu0 ht rfl ?_ rfl ?_ ?_ (contentAt_eq_some hocc) hgood
    · intro e he
      have he1 : e ∈ dictDel s.images i := he
      show e.2 < s.nextItem
      exact hids e (mem_dictDel he1)
    · show fsGet ((s.nextPath, (heapGet s.items iid).content) :: s.tempFiles)
        s.nextPath = (heapGet s.items iid).content
      rw [fsGet, if_pos rfl]
    · intro j hj
      unfold contentAt
      dsimp only
      rw [dictGet_del_ne _ _ _ hj]
      rcases hg : dictGet s.images j with _ | w
      · rfl
      · simp only [Option.map_some']
        refine congrArg some ?_
        exact heapGet_set_content s.items iid w
          (fun it => { it with inScene := false }) (fun _ => rfl)
  · have hu0 := undo_add_some_eq s rest i p iid hstk hocc
    rw [hrm] at hu0
    refine pair_add_core s _ i ((heapGet s.items iid).content)
      hu0 ht rfl ?_ rfl ?_ ?_ (contentAt_eq_some hocc) hgood
    · intro e he
      have he1 : e ∈ dictSet (dictDel s.images i) i s.nextItem := he
      show e.2 < s.nextItem + 1
      rcases e with ⟨j, w⟩
      rcases mem_dictSet he1 with h | h
      · cases h
        exact Nat.lt_succ_self _
      · exact Nat.lt_succ_of_lt (hids _ (mem_dictDel h))
    · show fsGet ((s.nextPath, (heapGet s.items iid).content) :: s.tempFiles)
        s.nextPath = (heapGet s.items iid).content
      rw [fsGet, if_pos rfl]
    · intro j hj
      unfold contentAt newItem
      dsimp only
      rw [dictGet_set_ne _ _ _ _ hj, dictGet_del_ne _ _ _ hj]
      rcases hg : dictGet s.images j with _ | w
      · rfl
      · have hw : w < s.nextItem := hids _ (dictGet_mem hg)
        simp only [Option.map_some']
        refine congrArg some ?_
        rw [heapGet_cons_ne _ _ _ _ (Nat.ne_of_lt hw)]
        exact heapGet_set_content s.items iid w
          (fun it => { it with inScene := false }) (fun _ => rfl)

/-! ### The undo and redo equations for DELETE -/

theorem undo_delete_eq (s : AppState) (rest : List Action) (i : Index)
    (p : Path) (hstk : s.undoStack = Action.delete i (some p) :: rest) :
    undoStep s = .ok
      { add_to_grid { s with undoStack := rest }
          (fileLoad { s with undoStack := rest } p) i false with
        redoStack := Action.delete i none ::
          (add_to_grid { s with undoStack := rest }
            (fileLoad { s with undoStack := rest } p) i false).redoStack } := by
  unfold undoStep
  rw [hstk]

theorem redo_delete_eq (s : AppState) (rest : List Action) (i : Index)
    (temp : Option Path) (hstk : s.redoStack = Action.delete i temp :: rest) :
    redoStep s = .ok
      { (remove_from_grid { s with redoStack := rest } i false).1 with
        undoStack := Action.delete i
            (remove_from_grid { s with redoStack := rest } i false).2 ::
          (remove_from_grid { s with redoStack := rest } i
            false).1.undoStack } := by
  unfold redoStep
  rw [hstk]

/-- An `undo(); redo();` pair on a DELETE top whose cell is empty and
whose snapshot is a well-formed cell pixmap restores the store: the undo
re-adds the snapshot and the redo removes it again. -/
theorem pair_delete (s : AppState) (i : Index) (p : Path)
    (rest : List Action)
    (hstk : s.undoStack = Action.delete i (some p) :: rest)
    (ht : s.threadRunning = false) (hids : IdsOK s)
    (hemp : dictGet s.images i = none)
    (hgood : GoodCell s.cfg (fileLoad s p)) :
    ∃ t, undoRedoPair s = some t ∧ StoreEq s t := by
  have hv0 : has_valid_pixel
      (fileLoad ({ s with undoStack := rest } : AppState) p) = true :=
    hgood.2.2.1
  have hundo := undo_delete_eq s rest i p hstk
  set A : AppState := add_to_grid { s with undoStack := rest }
    (fileLoad { s with undoStack := rest } p) i false with hA
  set u : AppState :=
    { A with redoStack := Action.delete i none :: A.redoStack } with hu
  have hArun : A.threadRunning = false := by
    rw [hA]
    exact ((add_frame { s with undoStack := rest }
      (fileLoad { s with undoStack := rest } p) i false hv0).2.1).trans ht
  set V : AppState :=
    { (remove_from_grid A i false).1 with
      undoStack := Action.delete i (remove_from_grid A i false).2 ::
        (remove_from_grid A i false).1.undoStack } with hV
  have hredo : redoStep u = .ok V := redo_delete_eq u A.redoStack i none rfl
  refine ⟨V, ?_, ?_⟩
  · unfold undoRedoPair
    rw [hundo]
    dsimp only
    rw [hredo]
  · intro j
    show OptImgEquiv (contentAt s j) (contentAt (remove_from_grid A i false).1 j)
    rw [remove_contentAt A i hArun j]
    by_cases hj : j = i
    · subst hj
      rw [if_pos rfl, contentAt_eq_none hemp]
      trivial
    · rw [if_neg hj]
      rw [hA, add_contentAt_ne { s with undoStack := rest }
        (fileLoad { s with undoStack := rest } p) i j false hv0 ht hids hj]
      exact OptImgEquiv_refl _

/-! ### The redo equation for SWITCH and the SWITCH pair -/

theorem redo_switch_eq (s : AppState) (rest : List Action) (a b : Index)
    (temp : Option Path) (ia ib : ItemId)
    (hstk : s.redoStack = Action.move a b temp MoveKind.SWITCH :: rest)
    (ha : dictGet s.images a = some ia) (hb : dictGet s.images b = some ib) :
    redoStep s = .ok
      { s with
        redoStack := rest,
        items := heapSet
          (heapSet s.items ia fun it => { it with pos := cell_origin s.cfg b })
          ib fun it => { it with pos := cell_origin s.cfg a },
        images := dictSet (dictSet s.images b ia) a ib,
        undoStack := Action.move a b none MoveKind.SWITCH :: s.undoStack } := by
  unfold redoStep setPos
  rw [hstk]
  dsimp only
  rw [ha, hb]

/-- An `undo(); redo();` pair on a SWITCH top with both cells occupied
restores the store: the undo swaps the two occupants and the redo swaps
them back. -/
theorem pair_switch (s : AppState) (a b : Index) (temp : Option Path)
    (rest : List Action) (ia ib : ItemId)
    (hstk : s.undoStack = Action.move a b temp MoveKind.SWITCH :: rest)
    (hab : a ≠ b)
    (ha : dictGet s.images a = some ia) (hb : dictGet s.images b = some ib) :
    ∃ t, undoRedoPair s = some t ∧ StoreEq s t := by
  have hba : b ≠ a := fun h => hab h.symm
  set U : AppState :=
    { s with
      undoStack := rest,
      items := heapSet
        (heapSet s.items ia fun it => { it with pos := cell_origin s.cfg b })
        ib fun it => { it with pos := cell_origin s.cfg a },
      images := dictSet (dictSet s.images b ia) a ib,
      redoStack := Action.move a b none MoveKind.SWITCH :: s.redoStack }
    with hU
  have hundo : undoStep s = .ok U :=
    undo_switch_both s rest a b temp ia ib hstk ha hb
  have hUa : dictGet U.images a = some ib := by
    show dictGet (dictSet (dictSet s.images b ia) a ib) a = some ib
    rw [dictGet_set_self]
  have hUb : dictGet U.images b = some ia := by
    show dictGet (dictSet (dictSet s.images b ia) a ib) b = some ia
    rw [dictGet_set_ne _ _ _ _ hba, dictGet_set_self]
  have hUit : ∀ q, (heapGet U.items q).content = (heapGet s.items q).content :=
    fun q => heap_double_set_content s.items ia ib q
      (fun it => { it with pos := cell_origin s.cfg b })
      (fun it => { it with pos := cell_origin s.cfg a })
      (fun _ => rfl) (fun _ => rfl)
  set V : AppState :=
    { U with
      redoStack := s.redoStack,
      items := heapSet
        (heapSet U.items ib fun it => { it with pos := cell_origin U.cfg b })
        ia fun it => { it with pos := cell_origin U.cfg a },
      images := dictSet (dictSet U.images b ib) a ia,
      undoStack := Action.move a b none MoveKind.SWITCH :: U.undoStack }
    with hV
  have hredo : redoStep U = .ok V :=
    redo_switch_eq U s.redoStack a b none ib ia rfl hUa hUb
  refine ⟨V, ?_, ?_⟩
  · unfold undoRedoPair
    rw [hundo]
    dsimp only
    rw [hredo]
  · refine storeEq_via s V a b ia ib ha hb ?_ ?_ ?_ ?_
    · show dictGet (dictSet (dictSet U.images b ib) a ia) a = some ia
      rw [dictGet_set_self]
    · show dictGet (dictSet (dictSet U.images b ib) a ia) b = some ib
      rw [dictGet_set_ne _ _ _ _ hba, dictGet_set_self]
    · intro j hja hjb
      show dictGet (dictSet (dictSet U.images b ib) a ia) j = dictGet s.images j
      rw [dictGet_set_ne _ _ _ _ hja, dictGet_set_ne _ _ _ _ hjb]
      show dictGet (dictSet (dictSet s.images b ia) a ib) j = dictGet s.images j
      rw [dictGet_set_ne _ _ _ _ hja, dictGet_set_ne _ _ _ _ hjb]
    · intro q
      exact (heap_double_set_content U.items ib ia q
        (fun it => { it with pos := cell_origin U.cfg b })
        (fun it => { it with pos := cell_origin U.cfg a })
        (fun _ => rfl) (fun _ => rfl)).trans (hUit q)

/-! ### Dict and heap projections of remove and add -/

theorem remove_dictGet (t : AppState) (i : Index)
    (ht : t.threadRunning = false) (j : Index) (hj : j ≠ i) :
    dictGet (remove_from_grid t i false).1.images j = dictGet t.images j := by
  rcases hx : dictGet t.images i with _ | iid
  · rw [remove_unoccupied t i false hx]
  · rcases hv : has_valid_pixel (heapGet t.items iid).content with _ | _
    · rw [remove_occupied_invalid t i iid ht hx hv]
      exact dictGet_del_ne _ _ _ hj
    · rw [remove_occupied_valid t i iid ht hx hv]
      exact dictGet_del_ne _ _ _ hj

theorem add_dictGet_ne (s : AppState) (im : Img) (i : Index) (hist : Bool)
    (j : Index) (hv : has_valid_pixel im = true)
    (ht : s.threadRunning = false) (hj : j ≠ i) :
    dictGet (add_to_grid s im i hist).images j = dictGet s.images j := by
  rw [add_core s im i hist hv]
  have hcore : dictGet (dictSet (remove_from_grid s i false).1.images i
      (remove_from_grid s i false).1.nextItem) j = dictGet s.images j := by
    rw [dictGet_set_ne _ _ _ _ hj]
    exact remove_dictGet s i ht j hj
  cases hist
  · exact hcore
  · exact hcore

theorem add_heap_content (s : AppState) (im : Img) (i : Index) (hist : Bool)
    (w : ItemId) (hv : has_valid_pixel im = true) (hw : w < s.nextItem) :
    (heapGet (add_to_grid s im i hist).items w).content =
      (heapGet s.items w).content := by
  rw [add_core s im i hist hv]
  have hne : w ≠ (remove_from_grid s i false).1.nextItem := by
    rw [(remove_frame s i).2.2.1]
    exact Nat.ne_of_lt hw
  have hcore : (heapGet (((remove_from_grid s i false).1.nextItem,
      (⟨drawOnCanvas s.cfg (capHeight s.cfg (capWidth s.cfg im)),
        cell_origin s.cfg i, true⟩ : Item)) ::
      (remove_from_grid s i false).1.items) w).content =
      (heapGet s.items w).content := by
    rw [heapGet_cons_ne _ _ _ _ hne]
    exact remove_heap_content s i w
  cases hist
  · exact hcore
  · exact hcore

/-! ### The undo and redo equations for OVERWRITE -/

theorem undo_overwrite_none_eq (s : AppState) (rest : List Action)
    (a b : Index) (ib : ItemId)
    (hstk : s.undoStack = Action.move a b none MoveKind.OVERWRITE :: rest)
    (hb : dictGet s.images b = some ib) :
    undoStep s = .ok
      { s with
        undoStack := rest,
        images := dictDel (dictSet s.images a ib) b,
        items := heapSet s.items ib
          fun it => { it with pos := cell_origin s.cfg a },
        redoStack := Action.move a b none MoveKind.OVERWRITE ::
          s.redoStack } := by
  unfold undoStep setPos
  rw [hstk]
  dsimp only
  rw [hb]

theorem redo_overwrite_eq (s : AppState) (rest : List Action) (a b : Index)
    (temp : Option Path) (iid : ItemId)
    (hstk : s.redoStack = Action.move a b temp MoveKind.OVERWRITE :: rest)
    (ha : dictGet (remove_from_grid { s with redoStack := rest } b
      false).1.images a = some iid) :
    redoStep s = .ok
      { (remove_from_grid { s with redoStack := rest } b false).1 with
        items := heapSet
          (remove_from_grid { s with redoStack := rest } b false).1.items iid
          fun it => { it with pos := cell_origin (remove_from_grid { s with redoStack := rest } b false).1.cfg b },
        images := dictDel (dictSet
          (remove_from_grid { s with redoStack := rest } b
            false).1.images b iid) a,
        undoStack := Action.move a b
            (remove_from_grid { s with redoStack := rest } b false).2
            MoveKind.OVERWRITE ::
          (remove_from_grid { s with redoStack := rest } b
            false).1.undoStack } := by
  unfold redoStep setPos
  rw [hstk]
  dsimp only
  rw [ha]

/-- Core of the OVERWRITE pair argument. -/
theorem pair_overwrite_core (s S2 : AppState) (a b : Index) (ib : ItemId)
    (X : Img)
    (hundo : undoStep s = .ok
      { S2 with redoStack := Action.move a b none MoveKind.OVERWRITE ::
        S2.redoStack })
    (hab : a ≠ b)
    (hS2run : S2.threadRunning = false)
    (hS2a : dictGet S2.images a = some ib)
    (hS2ib : (heapGet S2.items ib).content = X)
    (hS2other : ∀ j : Index, j ≠ a → j ≠ b → contentAt S2 j = contentAt s j)
    (hsa : contentAt s a = none)
    (hsb : contentAt s b = some X) :
    ∃ t, undoRedoPair s = some t ∧ StoreEq s t := by
  have hba : b ≠ a := fun h => hab h.symm
  set u : AppState :=
    { S2 with redoStack := Action.move a b none MoveKind.OVERWRITE ::
      S2.redoStack } with hu
  have hRa : dictGet (remove_from_grid S2 b false).1.images a = some ib := by
    rw [remove_dictGet S2 b hS2run a hab]
    exact hS2a
  set V : AppState :=
    { (remove_from_grid S2 b false).1 with
      items := heapSet (remove_from_grid S2 b false).1.items ib
        fun it => { it with pos := cell_origin (remove_from_grid S2 b false).1.cfg b },
      images := dictDel (dictSet
        (remove_from_grid S2 b false).1.images b ib) a,
      undoStack := Action.move a b (remove_from_grid S2 b false).2
          MoveKind.OVERWRITE ::
        (remove_from_grid S2 b false).1.undoStack } with hV
  have hredo : redoStep u = .ok V :=
    redo_overwrite_eq u S2.redoStack a b none ib rfl hRa
  refine ⟨V, ?_, ?_⟩
  · unfold undoRedoPair
    rw [hundo]
    dsimp only
    rw [hredo]
  · intro j
    by_cases hja : j = a
    · subst hja
      have hva : dictGet V.images j = none := by
        show dictGet (dictDel (dictSet
          (remove_from_grid S2 b false).1.images b ib) j) j = none
        exact dictGet_del_self _ _
      rw [contentAt_eq_none hva, hsa]
      trivial
    · by_cases hjb : j = b
      · rw [hjb]
        have hvb : dictGet V.images b = some ib := by
          show dictGet (dictDel (dictSet
            (remove_from_grid S2 b false).1.images b ib) a) b = some ib
          rw [dictGet_del_ne _ _ _ hba, dictGet_set_self]
        rw [contentAt_eq_some hvb, hsb]
        have hcc : (heapGet V.items ib).content = X := by
          show (heapGet (heapSet (remove_from_grid S2 b false).1.items ib
            fun it => { it with pos := cell_origin (remove_from_grid S2 b false).1.cfg b }) ib).content = X
          rw [heapGet_set_content (remove_from_grid S2 b false).1.items ib ib
            (fun it => { it with pos := cell_origin (remove_from_grid S2 b false).1.cfg b })
            (fun _ => rfl),
            remove_heap_content S2 b ib]
          exact hS2ib
        rw [hcc]
        exact Img.Equiv.refl X
      · have hvd : dictGet V.images j = dictGet S2.images j := by
          show dictGet (dictDel (dictSet
            (remove_from_grid S2 b false).1.images b ib) a) j = _
          rw [dictGet_del_ne _ _ _ hja, dictGet_set_ne _ _ _ _ hjb,
            remove_dictGet S2 b hS2run j hjb]
        rw [← hS2other j hja hjb]
        rcases hg : dictGet S2.images j with _ | w
        · rw [contentAt_eq_none hg, contentAt_eq_none (hvd.trans hg)]
          trivial
        · rw [contentAt_eq_some hg, contentAt_eq_some (hvd.trans hg)]
          have hcc : (heapGet V.items w).content =
              (heapGet S2.items w).content := by
            show (heapGet (heapSet (remove_from_grid S2 b false).1.items ib
              fun it => { it with pos := cell_origin (remove_from_grid S2 b false).1.cfg b }) w).content = _
            rw [heapGet_set_content (remove_from_grid S2 b false).1.items ib w
              (fun it => { it with pos := cell_origin (remove_from_grid S2 b false).1.cfg b })
              (fun _ => rfl),
              remove_heap_content S2 b w]
          rw [hcc]
          exact Img.Equiv.refl _

/-- An `undo(); redo();` pair on a MOVE/OVERWRITE top as a recorded
overwrite leaves it (source emptied, target occupied, any snapshot
well-formed) restores the store. -/
theorem pair_overwrite (s : AppState) (a b : Index) (temp : Option Path)
    (rest : List Action) (ib : ItemId)
    (hstk : s.undoStack = Action.move a b temp MoveKind.OVERWRITE :: rest)
    (ht : s.threadRunning = false) (hids : IdsOK s) (hab : a ≠ b)
    (hempa : dictGet s.images a = none)
    (hoccb : dictGet s.images b = some ib)
    (htemp : temp = none ∨
      ∃ p, temp = some p ∧ GoodCell s.cfg (fileLoad s p)) :
    ∃ t, undoRedoPair s = some t ∧ StoreEq s t := by
  have hother3 : ∀ j : Index, j ≠ a → j ≠ b →
      (dictGet (dictDel (dictSet s.images a ib) b) j).map
        (fun w => (heapGet (heapSet s.items ib
          fun it => { it with pos := cell_origin s.cfg a }) w).content) =
      contentAt s j := by
    intro j hja hjb
    unfold contentAt
    rw [dictGet_del_ne _ _ _ hjb, dictGet_set_ne _ _ _ _ hja]
    rcases hg : dictGet s.images j with _ | w
    · rfl
    · simp only [Option.map_some']
      refine congrArg some ?_
      exact heapGet_set_content s.items ib w
        (fun it => { it with pos := cell_origin s.cfg a }) (fun _ => rfl)
  have hT3a : dictGet (dictDel (dictSet s.images a ib) b) a = some ib := by
    rw [dictGet_del_ne _ _ _ hab, dictGet_set_self]
  have hT3ib : (heapGet (heapSet s.items ib
      fun it => { it with pos := cell_origin s.cfg a }) ib).content =
      (heapGet s.items ib).content :=
    heapGet_set_content s.items ib ib
      (fun it => { it with pos := cell_origin s.cfg a }) (fun _ => rfl)
  rcases htemp with hnone | ⟨p, hsome, hgood⟩
  · subst hnone
    have hundo := undo_overwrite_none_eq s rest a b ib hstk hoccb
    refine pair_overwrite_core s
      { s with
        undoStack := rest,
        images := dictDel (dictSet s.images a ib) b,
        items := heapSet s.items ib
          fun it => { it with pos := cell_origin s.cfg a } }
      a b ib ((heapGet s.items ib).content)
      hundo hab ht hT3a hT3ib ?_ (contentAt_eq_none hempa)
      (contentAt_eq_some hoccb)
    intro j hja hjb
    exact hother3 j hja hjb
  · subst hsome
    set T3 : AppState :=
      { s with
        undoStack := rest,
        images := dictDel (dictSet s.images a ib) b,
        items := heapSet s.items ib
          fun it => { it with pos := cell_origin s.cfg a } } with hT3
    have hvY : has_valid_pixel (fileLoad T3 p) = true := hgood.2.2.1
    have htT3 : T3.threadRunning = false := ht
    have hibn : ib < s.nextItem := hids _ (dictGet_mem hoccb)
    have hT3ids : IdsOK T3 := by
      intro e he
      have he1 : e ∈ dictDel (dictSet s.images a ib) b := he
      show e.2 < s.nextItem
      rcases e with ⟨j, w⟩
      rcases mem_dictSet (mem_dictDel he1) with h | h
      · cases h
        exact hibn
      · exact hids _ h
    have hundo : undoStep s = .ok
        { add_to_grid T3 (fileLoad T3 p) b false with
          redoStack := Action.move a b none MoveKind.OVERWRITE ::
            (add_to_grid T3 (fileLoad T3 p) b false).redoStack } :=
      undo_overwrite_step s rest a b p ib hstk hoccb
    refine pair_overwrite_core s (add_to_grid T3 (fileLoad T3 p) b false)
      a b ib ((heapGet s.items ib).content) hundo hab ?_ ?_ ?_ ?_
      (contentAt_eq_none hempa) (contentAt_eq_some hoccb)
    · exact ((add_frame T3 (fileLoad T3 p) b false hvY).2.1).trans ht
    · exact (add_dictGet_ne T3 (fileLoad T3 p) b false a hvY htT3 hab).trans
        hT3a
    · exact (add_heap_content T3 (fileLoad T3 p) b false ib hvY hibn).trans
        hT3ib
    · intro j hja hjb
      exact (add_contentAt_ne T3 (fileLoad T3 p) b j false hvY htT3 hT3ids
        hjb).trans (hother3 j hja hjb)

theorem pair_nil (s : AppState) (hu : s.undoStack = [])
    (hr : s.redoStack = []) :
    ∃ t, undoRedoPair s = some t ∧ StoreEq s t := by
  refine ⟨s, ?_, fun j => OptImgEquiv_refl _⟩
  unfold undoRedoPair
  rw [undoStep_nil s hu]
  dsimp only
  rw [redoStep_nil s hr]

/-- C1 (amended): on a pair-safe session — no worker running, sane
configuration, allocated ids, and the top of the undo list carrying the
data a recorded mutation leaves behind (for a whole-grid OVERHAUL record,
a scene that faithfully renders the dict) — `undo()` immediately followed
by `redo()` completes and restores the cell store to equivalent content:
the same occupied indices with the same pixel data.  The unconditional
claim over all reachable states is false: the merge-load counterexample
below reaches an aliased store whose pair silently drops a cell. -/
theorem undo_redo_pair_restores (s : AppState) (hsafe : PairSafe s) :
    ∃ t, undoRedoPair s = some t ∧ StoreEq s t := by
  obtain ⟨ht, hc, hids, htop⟩ := hsafe
  rcases hstk : s.undoStack with _ | ⟨act, rest⟩
  · rw [hstk] at htop
    exact pair_nil s hstk htop
  · rw [hstk] at htop
    rcases act with ⟨i, temp⟩ | ⟨i, temp⟩ | ⟨a, b, temp, mk⟩ | temp
    · obtain ⟨iid, hocc, hgood⟩ := htop
      exact pair_add s i temp rest iid hstk ht hids hocc hgood
    · obtain ⟨hemp, p, hsome, hgood⟩ := htop
      subst hsome
      exact pair_delete s i p rest hstk ht hids hemp hgood
    · rcases mk with _ | _
      · obtain ⟨hab, ⟨ia, ha⟩, ⟨ib, hb⟩⟩ := htop
        exact pair_switch s a b temp rest ia ib hstk hab ha hb
      · obtain ⟨hab, hempa, ⟨ib, hoccb⟩, htmp⟩ := htop
        exact pair_overwrite s a b temp rest ib hstk ht hids hab hempa
          hoccb htmp
    · exact pair_overhaul s temp rest hstk ht hc htop

/-- Witness for `undo_redo_pair_restores`: a pair-safe one-cell session
with a recorded ADD on the undo list. -/
theorem undo_redo_pair_restores_witness :
    ∃ t, undoRedoPair ⟨⟨1, 1, 2, 2⟩, [((0, 0), 0)],
        [(0, ⟨⟨1, 1, fun _ _ => ⟨7, 255⟩⟩, (0, 0), true⟩)], 1,
        [Action.add (0, 0) none], [], [], [], 0, false⟩ = some t ∧
      StoreEq ⟨⟨1, 1, 2, 2⟩, [((0, 0), 0)],
        [(0, ⟨⟨1, 1, fun _ _ => ⟨7, 255⟩⟩, (0, 0), true⟩)], 1,
        [Action.add (0, 0) none], [], [], [], 0, false⟩ t :=
  undo_redo_pair_restores
    ⟨⟨1, 1, 2, 2⟩, [((0, 0), 0)],
      [(0, ⟨⟨1, 1, fun _ _ => ⟨7, 255⟩⟩, (0, 0), true⟩)], 1,
      [Action.add (0, 0) none], [], [], [], 0, false⟩
    ⟨rfl, ⟨by decide, by decide, by decide, by decide⟩,
      by intro e he; fin_cases he <;> decide,
      0, rfl, rfl, rfl, rfl, by intro x y hx hy h; simp [heapGet] at h⟩

/-- C1 counterexample: starting from an empty 2×2 session of 1×1 cells,
`add((0,0), imgA)` then `move((0,0),(0,1), SWITCH)` (a one-sided switch,
which registers the single item under both dict keys) then a merging
`load(imgBig, history=True, reset=False, index=(1,0))` (which records an
OVERHAUL) produces a reachable store with (0,0) occupied; executing
`undo()` immediately followed by `redo()` succeeds but leaves (0,0)
empty — the pair does not restore the store, contradicting the claim. -/
theorem undo_redo_pair_counterexample :
    isOccupied (load (move_switch (add_to_grid
        ⟨⟨1, 1, 2, 2⟩, [], [], 0, [], [], [], [], 0, false⟩
        ⟨1, 1, fun _ _ => ⟨7, 255⟩⟩ (0, 0) true) (0, 0) (0, 1))
      ⟨1, 2, fun _ _ => ⟨9, 255⟩⟩ true false (some (1, 0))) (0, 0) = true ∧
    (undoRedoPair (load (move_switch (add_to_grid
        ⟨⟨1, 1, 2, 2⟩, [], [], 0, [], [], [], [], 0, false⟩
        ⟨1, 1, fun _ _ => ⟨7, 255⟩⟩ (0, 0) true) (0, 0) (0, 1))
      ⟨1, 2, fun _ _ => ⟨9, 255⟩⟩ true false (some (1, 0)))).map
      (fun t => isOccupied t (0, 0)) = some false :=
  ⟨rfl, rfl⟩

end SetMgr
